import Mathlib

/-!
Verification development for the plotting helper module (`plotting.py`).

The development shallowly embeds the three parts of the module the claims
are about:

* the multi-axis stack builder `axes` (left/right twin axes with spine
  offsets),
* the legend aggregator `legend`,
* the per-figure mouse-tracking machinery `add_mouse_tracking_vertical_line`
  with its `on_mouse_move` / `on_close` callbacks, `remove_lines` helper and
  the matplotlib event registry (`register_event` / `unregister_event`,
  i.e. `mpl_connect` / `mpl_disconnect`).

Matplotlib objects are modelled by records / opaque numeric identifiers:
an `Axes` instance is an `AxisRec` (builder part) or a bare `Nat` identifier
(tracking part), a canvas is a `Nat`, a `Line2D` artifact is a `Nat`
identifier.  Python dictionaries are modelled as insertion-ordered
association lists with the exact dict semantics (`lookupMap`, `setEntry`,
`eraseKey`): assignment to an existing key keeps its position, a new key is
appended, `del` removes the single entry.
-/

namespace Plotting

/-! ### Ordered association lists (Python `dict` semantics) -/

/-- `d[k]` lookup: first entry with the key (keys are unique in a dict). -/
def lookupMap {α : Type} : List (Nat × α) → Nat → Option α
  | [], _ => none
  | e :: t, k => if e.1 = k then some e.2 else lookupMap t k

/-- `d[k] = v`: replace the value in place if the key exists, else append. -/
def setEntry {α : Type} : List (Nat × α) → Nat → α → List (Nat × α)
  | [], k, v => [(k, v)]
  | e :: t, k, v => if e.1 = k then (k, v) :: t else e :: setEntry t k v

/-- `del d[k]`: drop the entry with the key. -/
def eraseKey {α : Type} : List (Nat × α) → Nat → List (Nat × α)
  | [], _ => []
  | e :: t, k => if e.1 = k then t else e :: eraseKey t k

/-! ### Axis stack builder (`plotting.axes`) -/

/-- Which side of the plotting canvas a spine / label sits on. -/
inductive Side where
  | left
  | right
  deriving Repr, DecidableEq

/-- Observable state of one matplotlib `Axes` as far as `plotting.axes` is
concerned.  `isHost` marks the provided host `Axes` instance (as opposed to
a freshly created twin); `leftSpinePos` / `rightSpinePos` are the spine
positions set with `set_position(("axes", pos))` (in axis-fraction units),
`none` when never set. -/
structure AxisRec where
  isHost : Bool
  xlabel : Option String := none
  ylabel : Option String := none
  gridOn : Bool := false
  leftSpinePos : Option ℚ := none
  rightSpinePos : Option ℚ := none
  frameOn : Bool := true
  patchVisible : Bool := true
  leftSpineVisible : Bool := true
  rightSpineVisible : Bool := true
  yLabelSide : Option Side := none
  yTickSide : Option Side := none
  useOffset : Bool := true
  deriving Repr, DecidableEq

/-- `host_ax.twinx()`: a fresh `Axes` sharing the canvas; created with its
frame off (see the comment in `make_patch_spines_invisible`). -/
def twin : AxisRec :=
  { isHost := false, frameOn := false }

/-- `make_patch_spines_invisible`: activate the frame but make the patch and
all spines invisible. -/
def make_patch_spines_invisible (a : AxisRec) : AxisRec :=
  { a with frameOn := true, patchVisible := false,
           leftSpineVisible := false, rightSpineVisible := false }

/-- The `y_label_left` / `y_label_right` argument: `None`, a single string,
or a collection of strings. -/
inductive YLabelArg where
  | noLabel
  | strLabel (s : String)
  | collLabel (ls : List String)
  deriving Repr, DecidableEq

/-- One iteration of the left-axes loop
(`for i, label in enumerate(y_label_left)` with `n = len(y_label_left)`):
index 0 reuses the host, others are twins; the left spine is positioned at
`-(n - i - 1) * offset`; all but the innermost axis get their patch/spines
hidden; the left spine is then shown and the y-label/ticks put on the left. -/
def leftAxisStep (host1 : AxisRec) (n : Nat) (offset : ℚ) (i : Nat)
    (label : String) : AxisRec :=
  let ax := if i = 0 then host1 else twin
  let ax := { ax with leftSpinePos := some (-(((n - i - 1 : Nat) : ℚ)) * offset) }
  let ax := if i < n - 1 then make_patch_spines_invisible ax else ax
  { ax with leftSpineVisible := true, yLabelSide := some Side.left,
            yTickSide := some Side.left, ylabel := some label }

/-- The left-axes loop itself, carrying the running index `i`. -/
def buildLeft (host1 : AxisRec) (n : Nat) (offset : ℚ) : Nat → List String → List AxisRec
  | _, [] => []
  | i, label :: rest => leftAxisStep host1 n offset i label :: buildLeft host1 n offset (i + 1) rest

/-- One iteration of the right-axes loop: always a twin; right spine at
`1 + i * offset`; all but the first (innermost) axis get their patch/spines
hidden; the right spine is then shown and the y-label/ticks put on the right. -/
def rightAxisStep (offset : ℚ) (i : Nat) (label : String) : AxisRec :=
  let ax := { twin with rightSpinePos := some (1 + (i : ℚ) * offset) }
  let ax := if 0 < i then make_patch_spines_invisible ax else ax
  { ax with rightSpineVisible := true, yLabelSide := some Side.right,
            yTickSide := some Side.right, ylabel := some label }

/-- The right-axes loop, carrying the running index `i`. -/
def buildRight (offset : ℚ) : Nat → List String → List AxisRec
  | _, [] => []
  | i, label :: rest => rightAxisStep offset i label :: buildRight offset (i + 1) rest

/-- The host-axis configuration done before the y-axes loops:
`if x_label is not None: host_ax.set_xlabel(x_label)` and
`host_ax.grid(True, 'both')`. -/
def hostPrep (host_ax : AxisRec) (x_label : Option String) : AxisRec :=
  { host_ax with
    xlabel := match x_label with
              | some s => some s
              | none => host_ax.xlabel,
    gridOn := true }

/-- `plotting.axes(host_ax, x_label, y_label_left, y_label_right, offset)`.

* the x-label is set when provided and the grid enabled;
* a plain-string `y_label_left` labels the host and uses it as the sole left
  axis; a truthy (non-empty) collection runs the left loop; anything else
  (including an empty collection) produces no left axes;
* a truthy `y_label_right` (a non-empty string is wrapped into a singleton
  list) runs the right loop; `None` / empty values produce no right axes;
* the result is `axs_left ++ axs_right`, every returned axis getting its
  y-major-formatter offset notation disabled.  (The final
  `tight_layout` call only touches the figure, not the returned axes.) -/
def axes (host_ax : AxisRec) (x_label : Option String)
    (y_label_left : YLabelArg) (y_label_right : YLabelArg) (offset : ℚ) : List AxisRec :=
  let host1 := hostPrep host_ax x_label
  let axs_left : List AxisRec :=
    match y_label_left with
    | YLabelArg.strLabel s => [{ host1 with ylabel := some s }]
    | YLabelArg.collLabel ls =>
        if ls = [] then [] else buildLeft host1 ls.length offset 0 ls
    | YLabelArg.noLabel => []
  let axs_right : List AxisRec :=
    match y_label_right with
    | YLabelArg.noLabel => []
    | YLabelArg.strLabel s => if s = "" then [] else buildRight offset 0 [s]
    | YLabelArg.collLabel ls => if ls = [] then [] else buildRight offset 0 ls
  let axs := axs_left ++ axs_right
  axs.map fun a => { a with useOffset := false }

/-! ### Legend aggregator (`plotting.legend`) -/

/-- The `LegendLocation` enumeration. -/
inductive LegendLocation where
  | best
  | upperRight
  | upperLeft
  | lowerLeft
  | lowerRight
  | right
  | centerLeft
  | centerRight
  | lowerCenter
  | upperCenter
  | center
  deriving Repr, DecidableEq

/-- `LegendLocation.value`. -/
def LegendLocation.val : LegendLocation → String
  | best => "best"
  | upperRight => "upper right"
  | upperLeft => "upper left"
  | lowerLeft => "lower left"
  | lowerRight => "lower right"
  | right => "right"
  | centerLeft => "center left"
  | centerRight => "center right"
  | lowerCenter => "lower center"
  | upperCenter => "upper center"
  | center => "center"

/-- The `loc` argument: the enumeration or a plain string. -/
inductive LocArg where
  | locEnum (l : LegendLocation)
  | locStr (s : String)
  deriving Repr, DecidableEq

/-- `loc.value if isinstance(loc, LegendLocation) else loc`. -/
def LocArg.val : LocArg → String
  | locEnum l => l.val
  | locStr s => s

/-- Observable state of one `Axes` as far as `plotting.legend` is concerned:
its legend handles (`Nat` identifiers for `Line2D` objects) and labels as
returned by `get_legend_handles_labels`, plus the legend attached to it by
`Axes.legend(lines, labels, loc)`, if any. -/
structure LegendAxis where
  handles : List Nat
  labels : List String
  attachedLegend : Option (List Nat × List String × String) := none
  deriving Repr, DecidableEq

/-- `plotting.legend(axes_, loc)`: collect the handle/label pairs of every
axis with two `extend` loops, then attach the combined legend to
`axes_[0]`.  Indexing the empty sequence raises `IndexError`, modelled as
`none`; on success the mutated axis list is returned. -/
def legend (axes_ : List LegendAxis) (loc : LocArg) : Option (List LegendAxis) :=
  let lines := axes_.foldl (fun acc a => acc ++ a.handles) []
  let labels := axes_.foldl (fun acc a => acc ++ a.labels) []
  match axes_ with
  | [] => none
  | a :: rest => some ({ a with attachedLegend := some (lines, labels, loc.val) } :: rest)

/-! ### Mouse-tracking vertical lines (`add_mouse_tracking_vertical_line`)

Canvases (`FigureCanvas`), axes and `Line2D` artifacts are opaque `Nat`
identifiers here.  The two module-level dictionaries
`_mouse_tracking_vertical_lines_cid : Dict[FigureCanvas, Tuple[int, int]]`
and `_mouse_tracking_vertical_lines : Dict[FigureCanvas, Dict[Axes, Line2D]]`
are the `cids` and `lines` fields of `PlotState`; the matplotlib event
registry (the callbacks currently connected via `mpl_connect`) is the `reg`
field; the set of `Line2D` artifacts currently attached to some axes (those
not yet `.remove()`d) is the `drawn` field, as `(axes, line)` pairs.  Fresh
`Line2D` and callback identifiers come from the `nextLine` / `Registry.nextCid`
counters. -/

/-- The `Event` enumeration of `plotting.py`. -/
inductive EventKind where
  | mouseButtonPress
  | mouseButtonRelease
  | keyPressEvt
  | keyReleaseEvt
  | mouseMove
  | closeEvt
  deriving Repr, DecidableEq

/-- The matplotlib callback registry: connected callbacks as
`(canvas, cid, event kind)` triples, plus the fresh-cid counter. -/
structure Registry where
  nextCid : Nat
  active : List (Nat × Nat × EventKind)
  deriving Repr, DecidableEq

/-- `register_event(fig, event, callback)`, i.e. `canvas.mpl_connect`:
returns the new callback id. -/
def register_event (r : Registry) (canvas : Nat) (k : EventKind) : Nat × Registry :=
  (r.nextCid, { nextCid := r.nextCid + 1, active := r.active ++ [(canvas, r.nextCid, k)] })

/-- `unregister_event(fig, cid)`, i.e. `canvas.mpl_disconnect(cid)`. -/
def unregister_event (r : Registry) (canvas : Nat) (cid : Nat) : Registry :=
  { r with active := r.active.filter fun e => !(e.1 == canvas && e.2.1 == cid) }

/-- The whole mutable state touched by the tracking machinery. -/
structure PlotState where
  reg : Registry
  cids : List (Nat × (Nat × Nat))
  lines : List (Nat × List (Nat × Option Nat))
  drawn : List (Nat × Nat)
  nextLine : Nat
  deriving Repr, DecidableEq

/-- The state at module load: empty dictionaries, no callbacks, no lines. -/
def initState : PlotState :=
  { reg := { nextCid := 0, active := [] }, cids := [], lines := [], drawn := [] , nextLine := 0 }

/-- `line.remove()`: detach one `Line2D` (identified by its id) from its axes. -/
def eraseLine : List (Nat × Nat) → Nat → List (Nat × Nat)
  | [], _ => []
  | e :: t, l => if e.2 = l then t else e :: eraseLine t l

/-- One iteration of the `remove_lines` loop body, for one axes key `ax`:
`if canvas_axes[ax]: canvas_axes[ax].remove(); del canvas_axes[ax];
canvas_axes[ax] = None` (the `del` + assignment moves the key to the end of
the dict). -/
def removeLineStep (acc : List (Nat × Option Nat) × List (Nat × Nat)) (ax : Nat) :
    List (Nat × Option Nat) × List (Nat × Nat) :=
  match lookupMap acc.1 ax with
  | some (some l) => (eraseKey acc.1 ax ++ [(ax, none)], eraseLine acc.2 l)
  | _ => acc

/-- `remove_lines(canvas_axes)`: iterate over a snapshot
`tuple(canvas_axes.keys())` of the keys, removing each drawn line and
resetting its map entry to `None`.  Returns the mutated per-canvas dict and
the mutated global set of drawn artifacts. -/
def remove_lines (m : List (Nat × Option Nat)) (d : List (Nat × Nat)) :
    List (Nat × Option Nat) × List (Nat × Nat) :=
  (m.map Prod.fst).foldl removeLineStep (m, d)

/-- The `for ax in my_axes: my_axes[ax] = ax.axvline(x=x, **line_kwargs)`
loop: walk the (post-removal) dict keys, create a fresh `Line2D` per axes
and store it in the map.  The accumulator is (dict, drawn artifacts, fresh
line counter). -/
def drawStep (acc : List (Nat × Option Nat) × List (Nat × Nat) × Nat) (ax : Nat) :
    List (Nat × Option Nat) × List (Nat × Nat) × Nat :=
  (setEntry acc.1 ax (some acc.2.2), acc.2.1 ++ [(ax, acc.2.2)], acc.2.2 + 1)

/-- The drawing loop over all keys of `my_axes`. -/
def drawLoop (m : List (Nat × Option Nat)) (d : List (Nat × Nat)) (n : Nat) :
    List (Nat × Option Nat) × List (Nat × Nat) × Nat :=
  (m.map Prod.fst).foldl drawStep (m, d, n)

/-- Outcome of `on_mouse_move`: `keyError` when the canvas has no entry in
`_mouse_tracking_vertical_lines` (the dict indexing raises), `fault s` when
the `x_converter` callback raises after the old lines were already removed
(the exception propagates, the mutations up to that point stay), `ok s`
for a normal return. -/
inductive MoveOutcome where
  | keyError
  | fault (s : PlotState)
  | ok (s : PlotState)
  deriving Repr, DecidableEq

/-- `on_mouse_move(event)` for a mouse-move event on `canvas` carrying the
optional data coordinate `xdata`; `x_converter` is the optional converter
closure (modelled as possibly raising).  Steps, in source order: look up the
canvas dict (KeyError if absent), `remove_lines`, return if `xdata` is
`None`, apply the converter (its exception propagates), then draw one new
vertical line per axes and request a deferred redraw (the redraw has no
model-visible state). -/
def on_mouse_move (x_converter : Option (ℚ → Except Unit ℚ)) (canvas : Nat)
    (xdata : Option ℚ) (s : PlotState) : MoveOutcome :=
  match lookupMap s.lines canvas with
  | none => MoveOutcome.keyError
  | some my_axes =>
    let rl := remove_lines my_axes s.drawn
    let s1 : PlotState := { s with lines := setEntry s.lines canvas rl.1, drawn := rl.2 }
    match xdata with
    | none => MoveOutcome.ok s1
    | some x =>
      let xc : Except Unit ℚ :=
        match x_converter with
        | some f => f x
        | none => Except.ok x
      match xc with
      | Except.error _ => MoveOutcome.fault s1
      | Except.ok _ =>
        let dl := drawLoop rl.1 s1.drawn s1.nextLine
        MoveOutcome.ok { s1 with lines := setEntry s1.lines canvas dl.1,
                                 drawn := dl.2.1, nextLine := dl.2.2 }

/-- `on_close(event)` for a close event on `canvas`: if the canvas has no
saved callback ids, return; otherwise unregister both callbacks, delete the
cid entry, `remove_lines` the canvas dict and delete it.  The dict lookup
`_mouse_tracking_vertical_lines[event.canvas]` raises KeyError (`none`) if
the cid entry existed but the lines entry did not. -/
def on_close (canvas : Nat) (s : PlotState) : Option PlotState :=
  match lookupMap s.cids canvas with
  | none => some s
  | some cidPair =>
    let reg1 := unregister_event (unregister_event s.reg canvas cidPair.1) canvas cidPair.2
    let cids1 := eraseKey s.cids canvas
    match lookupMap s.lines canvas with
    | none => none
    | some m =>
      let rl := remove_lines m s.drawn
      some { s with reg := reg1, cids := cids1,
                    lines := eraseKey s.lines canvas, drawn := rl.2 }

/-- `{ax: None for ax in to_axes}`: dict-comprehension insertion order —
re-assigning an existing key keeps its position and (here, identical `None`)
value.  (The `if ax` guard only skips falsy entries; actual `Axes` objects
are always truthy, so it never drops an axes and is omitted.) -/
def mkAxesMapGo (acc : List (Nat × Option Nat)) : List Nat → List (Nat × Option Nat)
  | [] => acc
  | ax :: t => mkAxesMapGo (setEntry acc ax none) t

/-- The comprehension, inserting left to right into an initially empty dict. -/
def mkAxesMap (axsList : List Nat) : List (Nat × Option Nat) :=
  mkAxesMapGo [] axsList

/-- `add_mouse_tracking_vertical_line(fig, to_axes, x_converter, **line_kwargs)`:
first fire a fake close event (tearing down any existing session), then
return if `to_axes is None`; otherwise normalise `to_axes` to a tuple, save
the fresh per-axes dict, and register the move and close callbacks, saving
their ids.  `none` propagates the (unreachable in practice) KeyError of the
fake close. -/
def add_mouse_tracking_vertical_line (canvas : Nat) (to_axes : Option (List Nat))
    (s : PlotState) : Option PlotState :=
  match on_close canvas s with
  | none => none
  | some s1 =>
    match to_axes with
    | none => some s1
    | some axsList =>
      let s2 : PlotState := { s1 with lines := setEntry s1.lines canvas (mkAxesMap axsList) }
      let mres := register_event s2.reg canvas EventKind.mouseMove
      let cres := register_event mres.2 canvas EventKind.closeEvt
      some { s2 with reg := cres.2,
                     cids := setEntry s2.cids canvas (mres.1, cres.1) }

/-- States reachable from module load through the tracking API and its event
callbacks: enabling/disabling (`add_mouse_tracking_vertical_line`), mouse
moves (normal return or a propagating converter fault) and close events. -/
inductive Reachable : PlotState → Prop where
  | init : Reachable initState
  | enable {s s' : PlotState} (canvas : Nat) (to_axes : Option (List Nat)) :
      Reachable s → add_mouse_tracking_vertical_line canvas to_axes s = some s' → Reachable s'
  | move {s s' : PlotState} (conv : Option (ℚ → Except Unit ℚ)) (canvas : Nat) (x : Option ℚ) :
      Reachable s → on_mouse_move conv canvas x s = MoveOutcome.ok s' → Reachable s'
  | moveFault {s s' : PlotState} (conv : Option (ℚ → Except Unit ℚ)) (canvas : Nat) (x : ℚ) :
      Reachable s → on_mouse_move conv canvas (some x) s = MoveOutcome.fault s' → Reachable s'
  | close {s s' : PlotState} (canvas : Nat) :
      Reachable s → on_close canvas s = some s' → Reachable s'

/-! ### Derived observers used in statements and in the state invariant -/

/-- Entries of a per-canvas dict whose value is `None`. -/
def nonesOf (m : List (Nat × Option Nat)) : List (Nat × Option Nat) :=
  m.filter fun e => e.2.isNone

/-- Entries of a per-canvas dict holding a line, reset to `None`. -/
def somesAsNone (m : List (Nat × Option Nat)) : List (Nat × Option Nat) :=
  (m.filter fun e => e.2.isSome).map fun e => (e.1, none)

/-- The line ids currently held by a per-canvas dict, in dict order. -/
def someVals (m : List (Nat × Option Nat)) : List Nat :=
  m.filterMap fun e => e.2

/-- The `(axes, line)` artifacts recorded by a per-canvas dict. -/
def somePairs (m : List (Nat × Option Nat)) : List (Nat × Nat) :=
  m.filterMap fun e => e.2.map fun l => (e.1, l)

/-- Detach the given lines (in order) from the drawn-artifact set. -/
def eraseDrawns (d : List (Nat × Nat)) (ls : List Nat) : List (Nat × Nat) :=
  ls.foldl eraseLine d

/-- Closed form of the post-state of the drawing loop: every key of `m`
mapped, in order, to a fresh line id counting up from `n`. -/
def freshEntries : List (Nat × Option Nat) → Nat → List (Nat × Option Nat)
  | [], _ => []
  | e :: t, n => (e.1, some n) :: freshEntries t (n + 1)

/-- The `(axes, line)` pairs created by the drawing loop. -/
def freshPairs : List (Nat × Option Nat) → Nat → List (Nat × Nat)
  | [], _ => []
  | e :: t, n => (e.1, n) :: freshPairs t (n + 1)

/-- All `(axes, line)` artifacts recorded across every tracked canvas. -/
def allSomePairs (lines : List (Nat × List (Nat × Option Nat))) : List (Nat × Nat) :=
  (lines.map fun e => somePairs e.2).flatten

/-- The callbacks currently connected for one canvas. -/
def canvasSubs (r : Registry) (c : Nat) : List (Nat × Nat × EventKind) :=
  r.active.filter fun e => e.1 == c

/-- The state invariant maintained by the tracking machinery:
the two bookkeeping dicts always track the same canvases, with unique keys;
a canvas with saved callback ids has exactly its move and close callbacks
connected (in registration order) and a canvas without saved ids has none;
every per-canvas dict has unique axes keys; the drawn artifacts are, up to
order, exactly the lines recorded in the dicts, with globally distinct line
ids below the fresh-id counter. -/
structure Inv (s : PlotState) : Prop where
  keysEq : s.cids.map Prod.fst = s.lines.map Prod.fst
  keysNodup : (s.cids.map Prod.fst).Nodup
  subsSome : ∀ c p, lookupMap s.cids c = some p →
    canvasSubs s.reg c = [(c, p.1, EventKind.mouseMove), (c, p.2, EventKind.closeEvt)]
  subsNone : ∀ c, lookupMap s.cids c = none → canvasSubs s.reg c = []
  mapsNodup : ∀ c m, lookupMap s.lines c = some m → (m.map Prod.fst).Nodup
  drawnPerm : s.drawn.Perm (allSomePairs s.lines)
  drawnNodup : (s.drawn.map Prod.snd).Nodup
  drawnLt : ∀ p ∈ s.drawn, p.2 < s.nextLine

/-! ## Theorems

### Axis stack builder -/

theorem buildLeft_length (host1 : AxisRec) (n : Nat) (offset : ℚ) :
    ∀ (i : Nat) (ls : List String), (buildLeft host1 n offset i ls).length = ls.length := by
  intro i ls
  induction ls generalizing i with
  | nil => rfl
  | cons a t ih => simp [buildLeft, ih]

theorem buildRight_length (offset : ℚ) :
    ∀ (i : Nat) (ls : List String), (buildRight offset i ls).length = ls.length := by
  intro i ls
  induction ls generalizing i with
  | nil => rfl
  | cons a t ih => simp [buildRight, ih]

theorem buildLeft_getElem? (host1 : AxisRec) (n : Nat) (offset : ℚ) :
    ∀ (ls : List String) (i j : Nat),
      (buildLeft host1 n offset i ls)[j]? =
        (ls[j]?).map fun lab => leftAxisStep host1 n offset (i + j) lab := by
  intro ls
  induction ls with
  | nil => intro i j; simp [buildLeft]
  | cons a t ih =>
    intro i j
    cases j with
    | zero => simp [buildLeft]
    | succ j' =>
      simp only [buildLeft, List.getElem?_cons_succ, ih (i + 1) j']
      have : i + 1 + j' = i + (j' + 1) := by omega
      rw [this]

theorem buildRight_getElem? (offset : ℚ) :
    ∀ (ls : List String) (i j : Nat),
      (buildRight offset i ls)[j]? =
        (ls[j]?).map fun lab => rightAxisStep offset (i + j) lab := by
  intro ls
  induction ls with
  | nil => intro i j; simp [buildRight]
  | cons a t ih =>
    intro i j
    cases j with
    | zero => simp [buildRight]
    | succ j' =>
      simp only [buildRight, List.getElem?_cons_succ, ih (i + 1) j']
      have : i + 1 + j' = i + (j' + 1) := by omega
      rw [this]

theorem leftAxisStep_leftSpinePos (host1 : AxisRec) (n : Nat) (offset : ℚ)
    (i : Nat) (lab : String) :
    (leftAxisStep host1 n offset i lab).leftSpinePos =
      some (-(((n - i - 1 : Nat) : ℚ)) * offset) := by
  simp only [leftAxisStep]
  split <;> simp [make_patch_spines_invisible]

theorem leftAxisStep_isHost (host1 : AxisRec) (n : Nat) (offset : ℚ)
    (i : Nat) (lab : String) (hh : host1.isHost = true) :
    (leftAxisStep host1 n offset i lab).isHost = decide (i = 0) := by
  simp only [leftAxisStep]
  by_cases hi : i = 0 <;>
    simp [hi, twin, hh] <;> split <;> simp [make_patch_spines_invisible, hh, twin]

theorem rightAxisStep_rightSpinePos (offset : ℚ) (i : Nat) (lab : String) :
    (rightAxisStep offset i lab).rightSpinePos = some (1 + (i : ℚ) * offset) := by
  simp only [rightAxisStep]
  split <;> simp [make_patch_spines_invisible, twin]

theorem rightAxisStep_isHost (offset : ℚ) (i : Nat) (lab : String) :
    (rightAxisStep offset i lab).isHost = false := by
  simp only [rightAxisStep]
  split <;> simp [make_patch_spines_invisible, twin]

/-- Unfolding of `axes` when both label arguments are (non-empty checked)
collections. -/
theorem axes_coll_eq (host_ax : AxisRec) (x_label : Option String)
    (ls rs : List String) (offset : ℚ) (hN : ls ≠ []) :
    axes host_ax x_label (YLabelArg.collLabel ls) (YLabelArg.collLabel rs) offset =
      (buildLeft (hostPrep host_ax x_label) ls.length offset 0 ls ++
        (if rs = [] then [] else buildRight offset 0 rs)).map
          fun a => { a with useOffset := false } := by
  simp only [axes, if_neg hN]

theorem hostPrep_isHost (host_ax : AxisRec) (x_label : Option String) :
    (hostPrep host_ax x_label).isHost = host_ax.isHost := rfl

/-- C2 counterexample: with empty label collections on both sides (and the
default offset `0.055 = 11/200`), `axes` returns the empty list — zero
axes, not the one-element list containing the host axis. -/
theorem axes_empty_labels_counterexample :
    axes { isHost := true } none (YLabelArg.collLabel []) (YLabelArg.collLabel [])
        (11 / 200) = [] ∧
    (axes { isHost := true } none (YLabelArg.collLabel []) (YLabelArg.collLabel [])
        (11 / 200)).length ≠ 1 := by
  constructor
  · rfl
  · intro h
    simp only [axes] at h
    simp at h

/-- C2 (amended): for every host axis, calling `axes` with empty label
collections on both sides succeeds (the function runs to completion) and
returns the empty list — neither branch appends any axis, so not even the
host axis is returned. -/
theorem axes_empty_labels (host_ax : AxisRec) (x_label : Option String) (offset : ℚ) :
    axes host_ax x_label (YLabelArg.collLabel []) (YLabelArg.collLabel []) offset = [] := by
  rfl

/-- C3 counterexample: with two left labels (`N = 2`) and offset `1/10`, the
host axis is at index `0` (not index `N - 1 = 1`) and its spine offset is
`-1/10` (not `0`); index `N - 1` holds a freshly created twin sitting at `0`. -/
theorem axes_host_index_counterexample :
    ((axes { isHost := true } none (YLabelArg.collLabel ["A", "B"])
        (YLabelArg.collLabel []) (1 / 10)).map
      fun a => (a.isHost, a.leftSpinePos)) =
      [(true, some (-(1 / 10))), (false, some 0)] := by
  norm_num [axes, hostPrep, buildLeft, leftAxisStep, make_patch_spines_invisible, twin]
  rfl

/-- C3 (amended): for `N ≥ 1` left labels, `M ≥ 0` right labels and a
positive offset, `axes` returns exactly `N + M` axes in left-to-right
order; the `i`-th left axis has spine offset `-(N - i - 1) * offset`, so
the axis at index `N - 1` (adjacent to the canvas) sits at offset `0` and
offsets strictly decrease moving outward; the host axis is the one at
index `0` (the outermost-left one), all others being twins; and the `j`-th
right axis has spine offset `1 + j * offset`, strictly increasing from `1`. -/
theorem axes_stack_layout (host_ax : AxisRec) (x_label : Option String)
    (ls rs : List String) (offset : ℚ) (r : List AxisRec)
    (hhost : host_ax.isHost = true) (hN : ls ≠ []) (hoff : 0 < offset)
    (hr : r = axes host_ax x_label (YLabelArg.collLabel ls) (YLabelArg.collLabel rs) offset) :
    r.length = ls.length + rs.length ∧
    (∀ i a, i < ls.length → r[i]? = some a →
       a.leftSpinePos = some (-(((ls.length - i - 1 : Nat) : ℚ)) * offset) ∧
       a.isHost = decide (i = 0)) ∧
    (∀ a, r[ls.length - 1]? = some a → a.leftSpinePos = some 0) ∧
    (∀ j a, j < rs.length → r[ls.length + j]? = some a →
       a.rightSpinePos = some (1 + (j : ℚ) * offset) ∧ a.isHost = false) ∧
    (∀ i j, i < j → j < ls.length →
       -(((ls.length - i - 1 : Nat) : ℚ)) * offset <
         -(((ls.length - j - 1 : Nat) : ℚ)) * offset) ∧
    (∀ i j : Nat, i < j → 1 + (i : ℚ) * offset < 1 + (j : ℚ) * offset) := by
  have hL : ∀ i j, i < j → j < ls.length →
      -(((ls.length - i - 1 : Nat) : ℚ)) * offset <
        -(((ls.length - j - 1 : Nat) : ℚ)) * offset := by
    intro i j hij hj
    have hnat : ls.length - j - 1 < ls.length - i - 1 := by omega
    have hq : ((ls.length - j - 1 : Nat) : ℚ) < ((ls.length - i - 1 : Nat) : ℚ) := by
      exact_mod_cast hnat
    have := mul_lt_mul_of_pos_right hq hoff
    linarith
  have hR : ∀ i j : Nat, i < j → 1 + (i : ℚ) * offset < 1 + (j : ℚ) * offset := by
    intro i j hij
    have hq : (i : ℚ) < (j : ℚ) := by exact_mod_cast hij
    have := mul_lt_mul_of_pos_right hq hoff
    linarith
  subst hr
  rw [axes_coll_eq host_ax x_label ls rs offset hN]
  set host1 : AxisRec := hostPrep host_ax x_label with hhost1
  have hhost1' : host1.isHost = true := by rw [hhost1, hostPrep_isHost]; exact hhost
  set r : List AxisRec :=
    (buildLeft host1 ls.length offset 0 ls ++
      (if rs = [] then [] else buildRight offset 0 rs)).map
        fun a => { a with useOffset := false } with hrdef
  have hlen : r.length = ls.length + rs.length := by
    rw [hrdef]
    by_cases hrs : rs = [] <;>
      simp [hrs, buildLeft_length, buildRight_length]
  have hleft : ∀ i a, i < ls.length → r[i]? = some a →
      a.leftSpinePos = some (-(((ls.length - i - 1 : Nat) : ℚ)) * offset) ∧
      a.isHost = decide (i = 0) := by
    intro i a hi ha
    rw [hrdef, List.getElem?_map,
      List.getElem?_append_left (by rw [buildLeft_length]; exact hi),
      buildLeft_getElem? host1 ls.length offset ls 0 i] at ha
    obtain ⟨lab, hlab⟩ : ∃ lab, ls[i]? = some lab :=
      ⟨ls[i], List.getElem?_eq_getElem hi⟩
    rw [hlab] at ha
    simp only [Option.map_some', Option.some_inj] at ha
    subst ha
    simp only [Nat.zero_add]
    refine ⟨?_, ?_⟩
    · simp [leftAxisStep_leftSpinePos]
    · simp [leftAxisStep_isHost host1 ls.length offset i lab hhost1']
  refine ⟨hlen, hleft, ?_, ?_, hL, hR⟩
  · intro a ha
    have hpos : 0 < ls.length := List.length_pos.mpr hN
    have h0 := (hleft (ls.length - 1) a (by omega) ha).1
    have hz : ls.length - (ls.length - 1) - 1 = 0 := by omega
    rw [hz] at h0
    rw [h0]
    norm_num
  · intro j a hj ha
    have hrs : rs ≠ [] := by
      intro h; rw [h] at hj; simp at hj
    rw [hrdef, List.getElem?_map,
      List.getElem?_append_right (by rw [buildLeft_length]; omega),
      buildLeft_length, if_neg hrs] at ha
    have hsub : ls.length + j - ls.length = j := by omega
    rw [hsub, buildRight_getElem? offset rs 0 j] at ha
    obtain ⟨lab, hlab⟩ : ∃ lab, rs[j]? = some lab :=
      ⟨rs[j], List.getElem?_eq_getElem hj⟩
    rw [hlab] at ha
    simp only [Option.map_some', Option.some_inj] at ha
    subst ha
    simp only [Nat.zero_add]
    refine ⟨?_, ?_⟩
    · simp [rightAxisStep_rightSpinePos]
    · simp [rightAxisStep_isHost]

/-- Witness for `axes_stack_layout`, on the spec's Scenario A input
(two left labels, one right label, offset `1/10`). -/
theorem axes_stack_layout_witness :
    (axes { isHost := true } none (YLabelArg.collLabel ["A", "B"])
        (YLabelArg.collLabel ["C"]) (1 / 10)).length = 2 + 1 := by
  have h := axes_stack_layout { isHost := true } none ["A", "B"] ["C"] (1 / 10)
    (axes { isHost := true } none (YLabelArg.collLabel ["A", "B"])
      (YLabelArg.collLabel ["C"]) (1 / 10))
    rfl (by decide) (by norm_num) rfl
  simpa using h.1

/-! ### Legend aggregator -/

/-- The `lines.extend(...)` / `labels.extend(...)` accumulation loop is
concatenation in axis order. -/
theorem foldl_extend {α β : Type} (f : α → List β) :
    ∀ (l : List α) (init : List β),
      l.foldl (fun acc a => acc ++ f a) init = init ++ (l.map f).flatten := by
  intro l
  induction l with
  | nil => intro init; simp
  | cons a t ih => intro init; simp [ih]

/-- C9: for a non-empty axis list, `legend` succeeds and attaches to the
first axis (and only to it — every other axis is returned unchanged) one
combined legend whose handle and label lists are the concatenations, in
axis order and preserving within-axis order, of each axis's own handles
and labels; the combined label list's length is the sum of the per-axis
label counts. -/
theorem legend_combines (axs : List LegendAxis) (loc : LocArg) (hne : axs ≠ []) :
    ∃ out, legend axs loc = some out ∧
      out.length = axs.length ∧
      (∀ a0, axs[0]? = some a0 →
        ∃ a0', out[0]? = some a0' ∧
          a0'.handles = a0.handles ∧ a0'.labels = a0.labels ∧
          a0'.attachedLegend =
            some ((axs.map LegendAxis.handles).flatten,
              (axs.map LegendAxis.labels).flatten, loc.val)) ∧
      (axs.map LegendAxis.labels).flatten.length =
        (axs.map fun a => a.labels.length).sum ∧
      (∀ i, 0 < i → out[i]? = axs[i]?) := by
  obtain ⟨a, rest, rfl⟩ : ∃ a rest, axs = a :: rest := by
    cases axs with
    | nil => exact absurd rfl hne
    | cons a rest => exact ⟨a, rest, rfl⟩
  refine ⟨{ a with attachedLegend := some (((a :: rest).map LegendAxis.handles).flatten, ((a :: rest).map LegendAxis.labels).flatten, loc.val) } :: rest,
    ?_, ?_, ?_, ?_, ?_⟩
  · simp only [legend]
    rw [foldl_extend LegendAxis.handles (a :: rest) [],
      foldl_extend LegendAxis.labels (a :: rest) []]
    simp
  · simp
  · intro a0 h0
    simp only [List.getElem?_cons_zero, Option.some_inj] at h0
    subst h0
    exact ⟨{ a with attachedLegend := some (((a :: rest).map LegendAxis.handles).flatten, ((a :: rest).map LegendAxis.labels).flatten, loc.val) }, by simp, rfl, rfl, rfl⟩
  · simp [Function.comp_def]
  · intro i hi
    cases i with
    | zero => omega
    | succ j => simp

/-- Witness for `legend_combines`: two axes with two and one labelled
lines respectively. -/
theorem legend_combines_witness :
    ∃ out, legend [⟨[1, 2], ["a", "b"], none⟩, ⟨[3], ["c"], none⟩]
        (LocArg.locEnum LegendLocation.best) = some out ∧ out.length = 2 := by
  obtain ⟨out, h1, h2, _⟩ := legend_combines
    [⟨[1, 2], ["a", "b"], none⟩, ⟨[3], ["c"], none⟩]
    (LocArg.locEnum LegendLocation.best) (by decide)
  exact ⟨out, h1, by simpa using h2⟩

/-- C10: `legend` on an empty axis list collects nothing and then fails on
the `axes_[0]` indexing (Python `IndexError`, modelled as `none`), so no
legend is attached anywhere. -/
theorem legend_empty_indexerror (loc : LocArg) : legend [] loc = none := rfl

/-! ### Association-list (dict) lemmas -/

theorem lookupMap_append_left {α : Type} (pre l : List (Nat × α)) (k : Nat)
    (h : k ∉ pre.map Prod.fst) : lookupMap (pre ++ l) k = lookupMap l k := by
  induction pre with
  | nil => rfl
  | cons e t ih =>
    simp only [List.map_cons, List.mem_cons, not_or] at h
    simp only [List.cons_append, lookupMap, if_neg (fun hh : e.1 = k => h.1 hh.symm)]
    exact ih h.2

theorem lookupMap_mid {α : Type} (pre l : List (Nat × α)) (k : Nat) (v : α)
    (h : k ∉ pre.map Prod.fst) : lookupMap (pre ++ (k, v) :: l) k = some v := by
  rw [lookupMap_append_left pre _ k h]
  simp [lookupMap]

theorem eraseKey_mid {α : Type} (pre l : List (Nat × α)) (k : Nat) (v : α)
    (h : k ∉ pre.map Prod.fst) : eraseKey (pre ++ (k, v) :: l) k = pre ++ l := by
  induction pre with
  | nil => simp [eraseKey]
  | cons e t ih =>
    simp only [List.map_cons, List.mem_cons, not_or] at h
    simp only [List.cons_append, eraseKey, if_neg (fun hh : e.1 = k => h.1 hh.symm),
      List.append_eq]
    rw [ih h.2]

theorem setEntry_mid {α : Type} (pre l : List (Nat × α)) (k : Nat) (v w : α)
    (h : k ∉ pre.map Prod.fst) : setEntry (pre ++ (k, v) :: l) k w = pre ++ (k, w) :: l := by
  induction pre with
  | nil => simp [setEntry]
  | cons e t ih =>
    simp only [List.map_cons, List.mem_cons, not_or] at h
    simp only [List.cons_append, setEntry, if_neg (fun hh : e.1 = k => h.1 hh.symm),
      List.append_eq]
    rw [ih h.2]

theorem setEntry_of_not_mem {α : Type} (l : List (Nat × α)) (k : Nat) (v : α)
    (h : k ∉ l.map Prod.fst) : setEntry l k v = l ++ [(k, v)] := by
  induction l with
  | nil => rfl
  | cons e t ih =>
    simp only [List.map_cons, List.mem_cons, not_or] at h
    simp only [setEntry, if_neg (fun hh : e.1 = k => h.1 hh.symm), List.cons_append]
    rw [ih h.2]

theorem lookupMap_isSome_iff {α : Type} (l : List (Nat × α)) (k : Nat) :
    (lookupMap l k).isSome ↔ k ∈ l.map Prod.fst := by
  induction l with
  | nil => simp [lookupMap]
  | cons e t ih =>
    by_cases hk : e.1 = k
    · subst hk; simp [lookupMap]
    · have hk' : ¬(k = e.1) := fun hh => hk hh.symm
      simp [lookupMap, hk, hk', ih]

theorem lookupMap_eq_none_iff {α : Type} (l : List (Nat × α)) (k : Nat) :
    lookupMap l k = none ↔ k ∉ l.map Prod.fst := by
  rw [← lookupMap_isSome_iff]
  cases lookupMap l k <;> simp

theorem lookupMap_setEntry_self {α : Type} (l : List (Nat × α)) (k : Nat) (v : α) :
    lookupMap (setEntry l k v) k = some v := by
  induction l with
  | nil => simp [setEntry, lookupMap]
  | cons e t ih =>
    by_cases hk : e.1 = k
    · simp [setEntry, hk, lookupMap]
    · simp [setEntry, hk, lookupMap, ih]

theorem lookupMap_setEntry_ne {α : Type} (l : List (Nat × α)) (k k' : Nat) (v : α)
    (h : k' ≠ k) : lookupMap (setEntry l k v) k' = lookupMap l k' := by
  have hkk : ¬(k = k') := fun hh => h hh.symm
  induction l with
  | nil => simp [setEntry, lookupMap, hkk]
  | cons e t ih =>
    by_cases hk : e.1 = k
    · simp only [setEntry, if_pos hk, lookupMap, if_neg hkk,
        if_neg (fun hh : e.1 = k' => hkk (hk.symm.trans hh))]
    · simp only [setEntry, if_neg hk, lookupMap]
      by_cases hk' : e.1 = k' <;> simp [hk', ih]

theorem lookupMap_eraseKey_ne {α : Type} (l : List (Nat × α)) (k k' : Nat)
    (h : k' ≠ k) : lookupMap (eraseKey l k) k' = lookupMap l k' := by
  have hkk : ¬(k = k') := fun hh => h hh.symm
  induction l with
  | nil => rfl
  | cons e t ih =>
    by_cases hk : e.1 = k
    · simp only [eraseKey, if_pos hk, lookupMap,
        if_neg (fun hh : e.1 = k' => hkk (hk.symm.trans hh))]
    · simp only [eraseKey, if_neg hk, lookupMap]
      by_cases hk' : e.1 = k' <;> simp [hk', ih]

theorem lookupMap_eraseKey_self {α : Type} (l : List (Nat × α)) (k : Nat)
    (h : (l.map Prod.fst).Nodup) : lookupMap (eraseKey l k) k = none := by
  induction l with
  | nil => rfl
  | cons e t ih =>
    simp only [List.map_cons, List.nodup_cons] at h
    by_cases hk : e.1 = k
    · subst hk
      simp only [eraseKey, if_pos rfl]
      rw [lookupMap_eq_none_iff]
      exact h.1
    · simp [eraseKey, hk, lookupMap, ih h.2]

theorem eraseKey_sublist {α : Type} (l : List (Nat × α)) (k : Nat) :
    (eraseKey l k).Sublist l := by
  induction l with
  | nil => exact List.Sublist.refl []
  | cons e t ih =>
    by_cases hk : e.1 = k
    · simp only [eraseKey, if_pos hk]
      exact List.sublist_cons_self e t
    · simp only [eraseKey, if_neg hk]
      exact ih.cons₂ e

theorem map_fst_eraseKey_congr {α β : Type} (k : Nat) :
    ∀ (l1 : List (Nat × α)) (l2 : List (Nat × β)), l1.map Prod.fst = l2.map Prod.fst →
      (eraseKey l1 k).map Prod.fst = (eraseKey l2 k).map Prod.fst := by
  intro l1
  induction l1 with
  | nil =>
    intro l2 h
    cases l2 with
    | nil => rfl
    | cons e2 t2 => simp at h
  | cons e t ih =>
    intro l2 h
    cases l2 with
    | nil => simp at h
    | cons e2 t2 =>
      simp only [List.map_cons, List.cons.injEq] at h
      obtain ⟨h1, h2⟩ := h
      by_cases hk : e.1 = k
      · simp [eraseKey, hk, h1 ▸ hk, h2]
      · have hk2 : ¬(e2.1 = k) := h1 ▸ hk
        simp only [eraseKey, if_neg hk, if_neg hk2, List.map_cons, h1, ih t2 h2]

theorem map_fst_setEntry_congr {α β : Type} (k : Nat) (v : α) (w : β) :
    ∀ (l1 : List (Nat × α)) (l2 : List (Nat × β)), l1.map Prod.fst = l2.map Prod.fst →
      (setEntry l1 k v).map Prod.fst = (setEntry l2 k w).map Prod.fst := by
  intro l1
  induction l1 with
  | nil =>
    intro l2 h
    cases l2 with
    | nil => rfl
    | cons e2 t2 => simp at h
  | cons e t ih =>
    intro l2 h
    cases l2 with
    | nil => simp at h
    | cons e2 t2 =>
      simp only [List.map_cons, List.cons.injEq] at h
      obtain ⟨h1, h2⟩ := h
      by_cases hk : e.1 = k
      · simp [setEntry, hk, h1 ▸ hk, h2]
      · have hk2 : ¬(e2.1 = k) := h1 ▸ hk
        simp only [setEntry, if_neg hk, if_neg hk2, List.map_cons, h1, ih t2 h2]

theorem map_fst_setEntry_mem {α : Type} (l : List (Nat × α)) (k : Nat) (v : α)
    (h : k ∈ l.map Prod.fst) : (setEntry l k v).map Prod.fst = l.map Prod.fst := by
  induction l with
  | nil => simp at h
  | cons e t ih =>
    by_cases hk : e.1 = k
    · simp [setEntry, hk]
    · have ht : k ∈ t.map Prod.fst := by
        simp only [List.map_cons, List.mem_cons] at h
        rcases h with h | h
        · exact absurd h.symm hk
        · exact h
      simp [setEntry, hk, ih ht]

theorem nodup_fst_setEntry {α : Type} (l : List (Nat × α)) (k : Nat) (v : α)
    (h : (l.map Prod.fst).Nodup) : ((setEntry l k v).map Prod.fst).Nodup := by
  by_cases hm : k ∈ l.map Prod.fst
  · rw [map_fst_setEntry_mem l k v hm]; exact h
  · rw [setEntry_of_not_mem l k v hm]
    simp only [List.map_append, List.map_cons, List.map_nil]
    simp [List.nodup_append, h, hm]

/-! ### The `remove_lines` loop in closed form -/

theorem removeLines_go :
    ∀ (m0 pre post : List (Nat × Option Nat)) (d : List (Nat × Nat)),
      ((pre ++ (m0 ++ post)).map Prod.fst).Nodup →
      (m0.map Prod.fst).foldl removeLineStep (pre ++ (m0 ++ post), d) =
        (pre ++ (nonesOf m0 ++ (post ++ somesAsNone m0)), eraseDrawns d (someVals m0)) := by
  intro m0
  induction m0 with
  | nil =>
    intro pre post d h
    simp [nonesOf, somesAsNone, someVals, eraseDrawns]
  | cons e m1 ih =>
    intro pre post d h
    obtain ⟨a, v⟩ := e
    have h' : (pre.map Prod.fst ++
        (a :: (m1.map Prod.fst ++ post.map Prod.fst))).Nodup := by
      simpa using h
    have hsplit := List.nodup_append.1 h'
    have ha_pre : a ∉ pre.map Prod.fst := fun hmem =>
      hsplit.2.2 hmem (List.mem_cons_self a _)
    cases v with
    | none =>
      have hstep : removeLineStep (pre ++ ((a, (none : Option Nat)) :: (m1 ++ post)), d) a =
          (pre ++ ((a, none) :: (m1 ++ post)), d) := by
        simp only [removeLineStep]
        rw [lookupMap_mid pre (m1 ++ post) a none ha_pre]
      simp only [List.map_cons, List.foldl_cons, List.cons_append, hstep]
      have hacc : pre ++ ((a, (none : Option Nat)) :: (m1 ++ post)) =
          (pre ++ [(a, none)]) ++ (m1 ++ post) := by simp
      rw [hacc, ih (pre ++ [(a, none)]) post d (by simpa using h')]
      simp [nonesOf, somesAsNone, someVals]
    | some l =>
      have hstep : removeLineStep (pre ++ ((a, some l) :: (m1 ++ post)), d) a =
          (pre ++ (m1 ++ (post ++ [(a, none)])), eraseLine d l) := by
        simp only [removeLineStep]
        rw [lookupMap_mid pre (m1 ++ post) a (some l) ha_pre,
          eraseKey_mid pre (m1 ++ post) a (some l) ha_pre]
        simp
      have p1 : List.Perm
          (pre.map Prod.fst ++ a :: (m1.map Prod.fst ++ post.map Prod.fst))
          (a :: (pre.map Prod.fst ++ (m1.map Prod.fst ++ post.map Prod.fst))) :=
        List.perm_middle
      have p2 : List.Perm
          ((pre.map Prod.fst ++ (m1.map Prod.fst ++ post.map Prod.fst)) ++ [a])
          (a :: (pre.map Prod.fst ++ (m1.map Prod.fst ++ post.map Prod.fst))) :=
        List.perm_append_singleton _ _
      have hnew : ((pre ++ (m1 ++ (post ++ [(a, (none : Option Nat))]))).map Prod.fst).Nodup := by
        have hn := ((p1.trans p2.symm).nodup_iff).1 h'
        simpa using hn
      simp only [List.map_cons, List.foldl_cons, List.cons_append, hstep]
      rw [ih pre (post ++ [(a, none)]) (eraseLine d l) hnew]
      simp [nonesOf, somesAsNone, someVals, eraseDrawns]

/-- `remove_lines` under unique keys: the `None`-valued entries stay in
place, the line-holding entries move to the back of the dict reset to
`None`, and exactly the recorded lines are detached from the axes. -/
theorem remove_lines_eq (m : List (Nat × Option Nat)) (d : List (Nat × Nat))
    (h : (m.map Prod.fst).Nodup) :
    remove_lines m d = (nonesOf m ++ somesAsNone m, eraseDrawns d (someVals m)) := by
  have hg := removeLines_go m [] [] d (by simpa using h)
  simpa [remove_lines] using hg

theorem nonesOf_append_somesAsNone_fst_perm (m : List (Nat × Option Nat)) :
    List.Perm ((nonesOf m ++ somesAsNone m).map Prod.fst) (m.map Prod.fst) := by
  induction m with
  | nil => simp [nonesOf, somesAsNone]
  | cons e t ih =>
    obtain ⟨a, v⟩ := e
    cases v with
    | none =>
      simp only [nonesOf, somesAsNone, List.filter_cons, Option.isNone_none,
        Option.isSome_none, List.cons_append, List.map_cons] at *
      simpa [nonesOf, somesAsNone] using ih.cons a
    | some l =>
      have hmid : List.Perm
          ((nonesOf t).map Prod.fst ++ a :: (somesAsNone t).map Prod.fst)
          (a :: ((nonesOf t).map Prod.fst ++ (somesAsNone t).map Prod.fst)) :=
        List.perm_middle
      have ih' : List.Perm
          ((nonesOf t).map Prod.fst ++ (somesAsNone t).map Prod.fst)
          (t.map Prod.fst) := by simpa using ih
      have : List.Perm
          ((nonesOf t).map Prod.fst ++ a :: (somesAsNone t).map Prod.fst)
          (a :: t.map Prod.fst) := hmid.trans (ih'.cons a)
      simpa [nonesOf, somesAsNone] using this

theorem mem_nonesOf_append_somesAsNone (m : List (Nat × Option Nat)) :
    ∀ e ∈ nonesOf m ++ somesAsNone m, e.2 = none := by
  intro e he
  rcases List.mem_append.1 he with h | h
  · have := List.of_mem_filter h
    simpa [Option.isNone_iff_eq_none] using this
  · obtain ⟨x, _, rfl⟩ := List.mem_map.1 h
    rfl

theorem somePairs_map_snd (m : List (Nat × Option Nat)) :
    (somePairs m).map Prod.snd = someVals m := by
  induction m with
  | nil => rfl
  | cons e t ih =>
    obtain ⟨a, v⟩ := e
    cases v <;> simp [somePairs, someVals] at ih ⊢ <;> exact ih

theorem somePairs_eq_nil (m : List (Nat × Option Nat)) (h : ∀ e ∈ m, e.2 = none) :
    somePairs m = [] := by
  induction m with
  | nil => rfl
  | cons e t ih =>
    obtain ⟨a, v⟩ := e
    have hv : v = none := h (a, v) (List.mem_cons_self _ _)
    subst hv
    simpa [somePairs] using ih fun x hx => h x (List.mem_cons_of_mem _ hx)

theorem eraseLine_sublist (d : List (Nat × Nat)) (l : Nat) :
    (eraseLine d l).Sublist d := by
  induction d with
  | nil => exact List.Sublist.refl []
  | cons e t ih =>
    by_cases hl : e.2 = l
    · simp only [eraseLine, if_pos hl]
      exact List.sublist_cons_self e t
    · simp only [eraseLine, if_neg hl]
      exact ih.cons₂ e

theorem eraseDrawns_sublist (ls : List Nat) :
    ∀ (d : List (Nat × Nat)), (eraseDrawns d ls).Sublist d := by
  induction ls with
  | nil => intro d; exact List.Sublist.refl d
  | cons l t ih =>
    intro d
    exact (ih (eraseLine d l)).trans (eraseLine_sublist d l)

/-- Removing one line (`Line2D.remove()`) from the drawn set, when line ids
are globally distinct, removes exactly the pair holding that id. -/
theorem eraseLine_perm (a l : Nat) :
    ∀ (d t : List (Nat × Nat)), List.Perm d ((a, l) :: t) →
      (d.map Prod.snd).Nodup → List.Perm (eraseLine d l) t := by
  intro d
  induction d with
  | nil =>
    intro t hp _
    have := hp.length_eq
    simp at this
  | cons e d' ih =>
    intro t hp hnd
    have hmem : (a, l) ∈ e :: d' := hp.mem_iff.2 (List.mem_cons_self _ _)
    by_cases hel : e.2 = l
    · have he : e = (a, l) := by
        rcases List.mem_cons.1 hmem with h | h
        · exact h.symm
        · exfalso
          have hl' : l ∈ d'.map Prod.snd := List.mem_map.2 ⟨(a, l), h, rfl⟩
          rw [List.map_cons, List.nodup_cons, hel] at hnd
          exact hnd.1 hl'
      simp only [eraseLine, if_pos hel]
      subst he
      exact hp.cons_inv
    · have he : e ≠ (a, l) := fun hh => hel (by rw [hh])
      have het : e ∈ t := by
        have : e ∈ (a, l) :: t := hp.mem_iff.1 (List.mem_cons_self _ _)
        rcases List.mem_cons.1 this with h | h
        · exact absurd h he
        · exact h
      have ht := List.perm_cons_erase het
      have hp2 := hp.trans ((ht.cons (a, l)).trans (List.Perm.swap e (a, l) _))
      have hd' := hp2.cons_inv
      have hnd' : (d'.map Prod.snd).Nodup := by
        rw [List.map_cons, List.nodup_cons] at hnd
        exact hnd.2
      have hih := ih _ hd' hnd'
      simp only [eraseLine, if_neg hel]
      exact (hih.cons e).trans (List.perm_cons_erase het).symm

/-- Detaching all of a session's recorded lines from the drawn-artifact set
leaves exactly the other sessions' artifacts. -/
theorem eraseDrawns_perm :
    ∀ (p d r : List (Nat × Nat)), List.Perm d (p ++ r) →
      (d.map Prod.snd).Nodup →
      List.Perm (eraseDrawns d (p.map Prod.snd)) r := by
  intro p
  induction p with
  | nil =>
    intro d r hp _
    simpa [eraseDrawns] using hp
  | cons e p' ih =>
    intro d r hp hnd
    obtain ⟨a, l⟩ := e
    have h1 : List.Perm (eraseLine d l) (p' ++ r) :=
      eraseLine_perm a l d (p' ++ r) (by simpa using hp) hnd
    have hnd' : ((eraseLine d l).map Prod.snd).Nodup :=
      hnd.sublist ((eraseLine_sublist d l).map Prod.snd)
    simpa [eraseDrawns] using ih (eraseLine d l) r h1 hnd'

theorem perm_append_ids_disjoint (d p r : List (Nat × Nat))
    (hp : List.Perm d (p ++ r)) (hnd : (d.map Prod.snd).Nodup) :
    ∀ l ∈ p.map Prod.snd, l ∉ r.map Prod.snd := by
  have hpr : ((p ++ r).map Prod.snd).Nodup := ((hp.map Prod.snd).nodup_iff).1 hnd
  rw [List.map_append] at hpr
  have hd := List.nodup_append.1 hpr
  exact fun l hl hr => hd.2.2 hl hr

/-! ### The drawing loop in closed form -/

theorem drawLoop_go :
    ∀ (m0 pre : List (Nat × Option Nat)) (d : List (Nat × Nat)) (n : Nat),
      ((pre ++ m0).map Prod.fst).Nodup →
      (m0.map Prod.fst).foldl drawStep (pre ++ m0, d, n) =
        (pre ++ freshEntries m0 n, d ++ freshPairs m0 n, n + m0.length) := by
  intro m0
  induction m0 with
  | nil =>
    intro pre d n h
    simp [freshEntries, freshPairs]
  | cons e m1 ih =>
    intro pre d n h
    obtain ⟨a, v⟩ := e
    have h' : (pre.map Prod.fst ++ a :: m1.map Prod.fst).Nodup := by simpa using h
    have hsplit := List.nodup_append.1 h'
    have ha_pre : a ∉ pre.map Prod.fst := fun hmem =>
      hsplit.2.2 hmem (List.mem_cons_self a _)
    have hstep : drawStep (pre ++ ((a, v) :: m1), d, n) a =
        (pre ++ ((a, some n) :: m1), d ++ [(a, n)], n + 1) := by
      simp only [drawStep]
      rw [setEntry_mid pre m1 a v (some n) ha_pre]
    simp only [List.map_cons, List.foldl_cons, hstep]
    have hacc : pre ++ ((a, some n) :: m1) = (pre ++ [(a, some n)]) ++ m1 := by simp
    rw [hacc, ih (pre ++ [(a, some n)]) (d ++ [(a, n)]) (n + 1) (by simpa using h')]
    simp only [freshEntries, freshPairs, Prod.mk.injEq, List.append_assoc,
      List.cons_append, List.nil_append, List.length_cons]
    refine ⟨by simp, by simp, by omega⟩

theorem drawLoop_eq (m : List (Nat × Option Nat)) (d : List (Nat × Nat)) (n : Nat)
    (h : (m.map Prod.fst).Nodup) :
    drawLoop m d n = (freshEntries m n, d ++ freshPairs m n, n + m.length) := by
  have hg := drawLoop_go m [] d n (by simpa using h)
  simpa [drawLoop] using hg

theorem freshEntries_map_fst : ∀ (m : List (Nat × Option Nat)) (n : Nat),
    (freshEntries m n).map Prod.fst = m.map Prod.fst := by
  intro m
  induction m with
  | nil => intro n; rfl
  | cons e t ih => intro n; simp [freshEntries, ih]

theorem somePairs_freshEntries : ∀ (m : List (Nat × Option Nat)) (n : Nat),
    somePairs (freshEntries m n) = freshPairs m n := by
  intro m
  induction m with
  | nil => intro n; rfl
  | cons e t ih =>
    intro n
    simp only [freshEntries, freshPairs]
    rw [show somePairs ((e.1, some n) :: freshEntries t (n + 1)) =
        (e.1, n) :: somePairs (freshEntries t (n + 1)) from by simp [somePairs]]
    rw [ih (n + 1)]

theorem freshPairs_snd_bounds : ∀ (m : List (Nat × Option Nat)) (n : Nat),
    ∀ p ∈ freshPairs m n, n ≤ p.2 ∧ p.2 < n + m.length := by
  intro m
  induction m with
  | nil => intro n p hp; simp [freshPairs] at hp
  | cons e t ih =>
    intro n p hp
    simp only [freshPairs, List.mem_cons] at hp
    rcases hp with hp | hp
    · subst hp; simp
    · have := ih (n + 1) p hp
      simp only [List.length_cons]
      omega

theorem freshPairs_snd_nodup : ∀ (m : List (Nat × Option Nat)) (n : Nat),
    ((freshPairs m n).map Prod.snd).Nodup := by
  intro m
  induction m with
  | nil => intro n; simp [freshPairs]
  | cons e t ih =>
    intro n
    simp only [freshPairs, List.map_cons, List.nodup_cons]
    refine ⟨?_, ih (n + 1)⟩
    intro hmem
    obtain ⟨p, hp, hp2⟩ := List.mem_map.1 hmem
    have := (freshPairs_snd_bounds t (n + 1) p hp).1
    omega

/-! ### The dict comprehension of `add_mouse_tracking_vertical_line` -/

theorem mem_setEntry {α : Type} (l : List (Nat × α)) (k : Nat) (v : α) :
    ∀ e ∈ setEntry l k v, e ∈ l ∨ e = (k, v) := by
  induction l with
  | nil =>
    intro e he
    simp [setEntry] at he
    right; exact he
  | cons e0 t ih =>
    intro e he
    by_cases hk : e0.1 = k
    · simp only [setEntry, if_pos hk, List.mem_cons] at he
      rcases he with he | he
      · right; exact he
      · left; exact List.mem_cons_of_mem _ he
    · simp only [setEntry, if_neg hk, List.mem_cons] at he
      rcases he with he | he
      · left; rw [he]; exact List.mem_cons_self _ _
      · rcases ih e he with h | h
        · left; exact List.mem_cons_of_mem _ h
        · right; exact h

theorem mkAxesMapGo_props :
    ∀ (axsList : List Nat) (acc : List (Nat × Option Nat)),
      (acc.map Prod.fst).Nodup → (∀ e ∈ acc, e.2 = none) →
      ((mkAxesMapGo acc axsList).map Prod.fst).Nodup ∧
        ∀ e ∈ mkAxesMapGo acc axsList, e.2 = none := by
  intro axsList
  induction axsList with
  | nil => intro acc h1 h2; exact ⟨h1, h2⟩
  | cons ax t ih =>
    intro acc h1 h2
    refine ih (setEntry acc ax none) (nodup_fst_setEntry acc ax none h1) ?_
    intro e he
    rcases mem_setEntry acc ax none e he with h | h
    · exact h2 e h
    · rw [h]

theorem mkAxesMap_nodup (axsList : List Nat) :
    ((mkAxesMap axsList).map Prod.fst).Nodup :=
  (mkAxesMapGo_props axsList [] (by simp) (by simp)).1

theorem mkAxesMap_values (axsList : List Nat) :
    ∀ e ∈ mkAxesMap axsList, e.2 = none :=
  (mkAxesMapGo_props axsList [] (by simp) (by simp)).2

theorem somePairs_mkAxesMap (axsList : List Nat) : somePairs (mkAxesMap axsList) = [] :=
  somePairs_eq_nil _ (mkAxesMap_values axsList)

/-! ### Artifact bookkeeping across canvases -/

theorem lookupMap_decomp {α : Type} :
    ∀ (l : List (Nat × α)) (k : Nat) (v : α), lookupMap l k = some v →
      ∃ l1 l2, l = l1 ++ (k, v) :: l2 ∧ k ∉ l1.map Prod.fst := by
  intro l
  induction l with
  | nil => intro k v h; simp [lookupMap] at h
  | cons e t ih =>
    intro k v h
    by_cases hk : e.1 = k
    · simp only [lookupMap, if_pos hk, Option.some_inj] at h
      refine ⟨[], t, ?_, by simp⟩
      have he : e = (k, v) := Prod.ext hk h
      rw [he]
      rfl
    · simp only [lookupMap, if_neg hk] at h
      obtain ⟨l1, l2, rfl, hnm⟩ := ih k v h
      refine ⟨e :: l1, l2, rfl, ?_⟩
      simp only [List.map_cons, List.mem_cons, not_or]
      exact ⟨fun hh => hk hh.symm, hnm⟩

theorem allSomePairs_append (l1 l2 : List (Nat × List (Nat × Option Nat))) :
    allSomePairs (l1 ++ l2) = allSomePairs l1 ++ allSomePairs l2 := by
  simp [allSomePairs]

theorem allSomePairs_cons (e : Nat × List (Nat × Option Nat))
    (l : List (Nat × List (Nat × Option Nat))) :
    allSomePairs (e :: l) = somePairs e.2 ++ allSomePairs l := by
  simp [allSomePairs]

theorem perm_append_rotate {α : Type} (A B C : List α) :
    List.Perm (A ++ (B ++ C)) (B ++ (A ++ C)) := by
  have h1 : A ++ (B ++ C) = (A ++ B) ++ C := by simp
  have h2 : B ++ (A ++ C) = (B ++ A) ++ C := by simp
  rw [h1, h2]
  exact List.perm_append_comm.append_right C

theorem allSomePairs_middle_perm (l1 l2 : List (Nat × List (Nat × Option Nat)))
    (c : Nat) (m : List (Nat × Option Nat)) :
    List.Perm (allSomePairs (l1 ++ (c, m) :: l2))
      (somePairs m ++ (allSomePairs l1 ++ allSomePairs l2)) := by
  rw [allSomePairs_append, allSomePairs_cons]
  exact perm_append_rotate _ _ _

/-! ### The event registry under register / unregister -/

theorem filter_canvas_unregister (l : List (Nat × Nat × EventKind)) (c cid c' : Nat) :
    ((l.filter fun e => !(e.1 == c && e.2.1 == cid)).filter fun e => e.1 == c') =
      if c' = c then ((l.filter fun e => e.1 == c').filter fun e => !(e.2.1 == cid))
      else l.filter fun e => e.1 == c' := by
  by_cases hcc : c' = c
  · subst hcc
    rw [if_pos rfl, List.filter_filter, List.filter_filter]
    refine List.filter_congr ?_
    intro a _
    cases hb1 : (a.1 == c') <;> cases hb2 : (a.2.1 == cid) <;> simp [hb1, hb2]
  · rw [if_neg hcc, List.filter_filter]
    refine List.filter_congr ?_
    intro a _
    cases hb1 : (a.1 == c') <;> cases hb2 : (a.1 == c) <;> simp [hb1, hb2]
    exact absurd ((eq_of_beq hb1).symm.trans (eq_of_beq hb2)) hcc

theorem canvasSubs_unregister (r : Registry) (c cid c' : Nat) :
    canvasSubs (unregister_event r c cid) c' =
      if c' = c then (canvasSubs r c').filter fun e => !(e.2.1 == cid)
      else canvasSubs r c' := by
  simp only [canvasSubs, unregister_event]
  exact filter_canvas_unregister r.active c cid c'

theorem canvasSubs_register (r : Registry) (c : Nat) (k : EventKind) (c' : Nat) :
    canvasSubs (register_event r c k).2 c' =
      canvasSubs r c' ++ (if c' = c then [(c, r.nextCid, k)] else []) := by
  simp only [canvasSubs, register_event, List.filter_append]
  congr 1
  by_cases hcc : c' = c
  · subst hcc
    simp
  · simp only [List.filter_cons]
    rw [if_neg hcc]
    have : (c == c') = false := by
      simp only [beq_eq_false_iff_ne, ne_eq]
      exact fun hh => hcc hh.symm
    simp [this]

/-! ### The state invariant is preserved by every operation -/

theorem inv_lines_nodup_fst (s : PlotState) (hinv : Inv s) :
    (s.lines.map Prod.fst).Nodup := hinv.keysEq ▸ hinv.keysNodup

theorem inv_lines_of_cids (s : PlotState) (c : Nat) (p : Nat × Nat) (hinv : Inv s)
    (hc : lookupMap s.cids c = some p) : ∃ m, lookupMap s.lines c = some m := by
  have hmem : c ∈ s.cids.map Prod.fst :=
    (lookupMap_isSome_iff s.cids c).1 (by simp [hc])
  have hmem' : c ∈ s.lines.map Prod.fst := hinv.keysEq ▸ hmem
  have := (lookupMap_isSome_iff s.lines c).2 hmem'
  cases hm : lookupMap s.lines c with
  | none => rw [hm] at this; simp at this
  | some m => exact ⟨m, rfl⟩

theorem inv_cids_of_lines (s : PlotState) (c : Nat) (m : List (Nat × Option Nat))
    (hinv : Inv s) (hm : lookupMap s.lines c = some m) :
    ∃ p, lookupMap s.cids c = some p := by
  have hmem : c ∈ s.lines.map Prod.fst :=
    (lookupMap_isSome_iff s.lines c).1 (by simp [hm])
  have hmem' : c ∈ s.cids.map Prod.fst := hinv.keysEq.symm ▸ hmem
  have := (lookupMap_isSome_iff s.cids c).2 hmem'
  cases hc : lookupMap s.cids c with
  | none => rw [hc] at this; simp at this
  | some p => exact ⟨p, rfl⟩

theorem on_close_no_session (s : PlotState) (c : Nat)
    (hc : lookupMap s.cids c = none) : on_close c s = some s := by
  simp [on_close, hc]

theorem on_close_of_session (s : PlotState) (c : Nat) (p : Nat × Nat)
    (m : List (Nat × Option Nat)) (hinv : Inv s)
    (hc : lookupMap s.cids c = some p) (hm : lookupMap s.lines c = some m) :
    on_close c s = some
      { s with reg := unregister_event (unregister_event s.reg c p.1) c p.2,
               cids := eraseKey s.cids c,
               lines := eraseKey s.lines c,
               drawn := eraseDrawns s.drawn (someVals m) } := by
  simp only [on_close, hc, hm]
  rw [remove_lines_eq m s.drawn (hinv.mapsNodup c m hm)]

theorem drawn_after_remove (s : PlotState) (c : Nat) (m : List (Nat × Option Nat))
    (l1 l2 : List (Nat × List (Nat × Option Nat)))
    (hdecomp : s.lines = l1 ++ (c, m) :: l2)
    (hperm : List.Perm s.drawn (allSomePairs s.lines))
    (hnd : (s.drawn.map Prod.snd).Nodup) :
    List.Perm (eraseDrawns s.drawn (someVals m))
      (allSomePairs l1 ++ allSomePairs l2) := by
  rw [← somePairs_map_snd]
  refine eraseDrawns_perm (somePairs m) s.drawn _ ?_ hnd
  rw [hdecomp] at hperm
  exact hperm.trans (allSomePairs_middle_perm l1 l2 c m)

theorem inv_on_close (s s' : PlotState) (c : Nat) (hinv : Inv s)
    (h : on_close c s = some s') : Inv s' := by
  cases hc : lookupMap s.cids c with
  | none =>
    rw [on_close_no_session s c hc, Option.some_inj] at h
    exact h ▸ hinv
  | some p =>
    obtain ⟨m, hm⟩ := inv_lines_of_cids s c p hinv hc
    rw [on_close_of_session s c p m hinv hc hm, Option.some_inj] at h
    subst h
    obtain ⟨l1, l2, hdecomp, hl1⟩ := lookupMap_decomp s.lines c m hm
    have hlinesnd := inv_lines_nodup_fst s hinv
    constructor
    · exact map_fst_eraseKey_congr c s.cids s.lines hinv.keysEq
    · exact hinv.keysNodup.sublist ((eraseKey_sublist s.cids c).map Prod.fst)
    · intro c' p' hc'
      by_cases hcc : c' = c
      · subst hcc
        rw [lookupMap_eraseKey_self s.cids c' hinv.keysNodup] at hc'
        exact absurd hc' (by simp)
      · rw [lookupMap_eraseKey_ne s.cids c c' hcc] at hc'
        rw [canvasSubs_unregister, if_neg hcc, canvasSubs_unregister, if_neg hcc]
        exact hinv.subsSome c' p' hc'
    · intro c' hc'
      by_cases hcc : c' = c
      · subst hcc
        rw [canvasSubs_unregister, if_pos rfl, canvasSubs_unregister, if_pos rfl,
          hinv.subsSome c' p hc]
        by_cases hpp : p.2 = p.1 <;> simp [hpp]
      · rw [lookupMap_eraseKey_ne s.cids c c' hcc] at hc'
        rw [canvasSubs_unregister, if_neg hcc, canvasSubs_unregister, if_neg hcc]
        exact hinv.subsNone c' hc'
    · intro c' m' hm'
      by_cases hcc : c' = c
      · subst hcc
        rw [lookupMap_eraseKey_self s.lines c' hlinesnd] at hm'
        exact absurd hm' (by simp)
      · rw [lookupMap_eraseKey_ne s.lines c c' hcc] at hm'
        exact hinv.mapsNodup c' m' hm'
    · show List.Perm (eraseDrawns s.drawn (someVals m)) (allSomePairs (eraseKey s.lines c))
      rw [hdecomp, eraseKey_mid l1 l2 c m hl1, allSomePairs_append]
      exact drawn_after_remove s c m l1 l2 hdecomp hinv.drawnPerm hinv.drawnNodup
    · exact hinv.drawnNodup.sublist ((eraseDrawns_sublist (someVals m) s.drawn).map Prod.snd)
    · intro q hq
      exact hinv.drawnLt q ((eraseDrawns_sublist (someVals m) s.drawn).mem hq)

theorem setEntry_setEntry {α : Type} (l : List (Nat × α)) (k : Nat) (v w : α) :
    setEntry (setEntry l k v) k w = setEntry l k w := by
  induction l with
  | nil => simp [setEntry]
  | cons e t ih =>
    by_cases hk : e.1 = k
    · simp [setEntry, hk]
    · simp [setEntry, hk, ih]

/-- Invariant preservation for the state just after `remove_lines` ran on an
active session's dict (the state seen on an absent coordinate, or when the
converter faults). -/
theorem inv_after_remove (s : PlotState) (c : Nat) (m : List (Nat × Option Nat))
    (hinv : Inv s) (hm : lookupMap s.lines c = some m) :
    Inv { s with lines := setEntry s.lines c (nonesOf m ++ somesAsNone m),
                 drawn := eraseDrawns s.drawn (someVals m) } := by
  obtain ⟨l1, l2, hdecomp, hl1⟩ := lookupMap_decomp s.lines c m hm
  have hmnd := hinv.mapsNodup c m hm
  have hmem : c ∈ s.lines.map Prod.fst :=
    (lookupMap_isSome_iff s.lines c).1 (by simp [hm])
  constructor
  · show s.cids.map Prod.fst = (setEntry s.lines c _).map Prod.fst
    rw [map_fst_setEntry_mem s.lines c _ hmem]
    exact hinv.keysEq
  · exact hinv.keysNodup
  · exact hinv.subsSome
  · exact hinv.subsNone
  · intro c' m' hm'
    by_cases hcc : c' = c
    · subst hcc
      rw [lookupMap_setEntry_self] at hm'
      rw [Option.some_inj] at hm'
      subst hm'
      exact ((nonesOf_append_somesAsNone_fst_perm m).nodup_iff).2 hmnd
    · rw [lookupMap_setEntry_ne s.lines c c' _ hcc] at hm'
      exact hinv.mapsNodup c' m' hm'
  · show List.Perm (eraseDrawns s.drawn (someVals m)) (allSomePairs (setEntry s.lines c _))
    rw [hdecomp, setEntry_mid l1 l2 c m _ hl1, allSomePairs_append, allSomePairs_cons]
    rw [somePairs_eq_nil _ (mem_nonesOf_append_somesAsNone m)]
    rw [List.nil_append]
    exact drawn_after_remove s c m l1 l2 hdecomp hinv.drawnPerm hinv.drawnNodup
  · exact hinv.drawnNodup.sublist ((eraseDrawns_sublist (someVals m) s.drawn).map Prod.snd)
  · intro q hq
    exact hinv.drawnLt q ((eraseDrawns_sublist (someVals m) s.drawn).mem hq)

/-- Invariant preservation for the state after a full remove-and-redraw
tick (a move event carrying a coordinate, converter succeeding). -/
theorem inv_after_draw (s : PlotState) (c : Nat) (m : List (Nat × Option Nat))
    (hinv : Inv s) (hm : lookupMap s.lines c = some m) :
    Inv { s with
          lines := setEntry s.lines c
            (freshEntries (nonesOf m ++ somesAsNone m) s.nextLine),
          drawn := eraseDrawns s.drawn (someVals m) ++
            freshPairs (nonesOf m ++ somesAsNone m) s.nextLine,
          nextLine := s.nextLine + (nonesOf m ++ somesAsNone m).length } := by
  obtain ⟨l1, l2, hdecomp, hl1⟩ := lookupMap_decomp s.lines c m hm
  have hmnd := hinv.mapsNodup c m hm
  have hmem : c ∈ s.lines.map Prod.fst :=
    (lookupMap_isSome_iff s.lines c).1 (by simp [hm])
  have hm1nd : ((nonesOf m ++ somesAsNone m).map Prod.fst).Nodup :=
    ((nonesOf_append_somesAsNone_fst_perm m).nodup_iff).2 hmnd
  have hd1sub := (eraseDrawns_sublist (someVals m) s.drawn)
  have hd1lt : ∀ q ∈ eraseDrawns s.drawn (someVals m), q.2 < s.nextLine :=
    fun q hq => hinv.drawnLt q (hd1sub.mem hq)
  constructor
  · show s.cids.map Prod.fst = (setEntry s.lines c _).map Prod.fst
    rw [map_fst_setEntry_mem s.lines c _ hmem]
    exact hinv.keysEq
  · exact hinv.keysNodup
  · exact hinv.subsSome
  · exact hinv.subsNone
  · intro c' m' hm'
    by_cases hcc : c' = c
    · subst hcc
      rw [lookupMap_setEntry_self, Option.some_inj] at hm'
      subst hm'
      rw [freshEntries_map_fst]
      exact hm1nd
    · rw [lookupMap_setEntry_ne s.lines c c' _ hcc] at hm'
      exact hinv.mapsNodup c' m' hm'
  · show List.Perm (eraseDrawns s.drawn (someVals m) ++ _)
      (allSomePairs (setEntry s.lines c _))
    rw [hdecomp, setEntry_mid l1 l2 c m _ hl1, allSomePairs_append, allSomePairs_cons]
    rw [somePairs_freshEntries]
    have hrm := drawn_after_remove s c m l1 l2 hdecomp hinv.drawnPerm hinv.drawnNodup
    have h1 : List.Perm
        (eraseDrawns s.drawn (someVals m) ++
          freshPairs (nonesOf m ++ somesAsNone m) s.nextLine)
        ((allSomePairs l1 ++ allSomePairs l2) ++
          freshPairs (nonesOf m ++ somesAsNone m) s.nextLine) :=
      hrm.append_right _
    refine h1.trans ?_
    have h2 : (allSomePairs l1 ++ allSomePairs l2) ++
        freshPairs (nonesOf m ++ somesAsNone m) s.nextLine =
        allSomePairs l1 ++ (allSomePairs l2 ++
          freshPairs (nonesOf m ++ somesAsNone m) s.nextLine) := by simp
    rw [h2]
    exact List.Perm.append_left _ List.perm_append_comm
  · rw [List.map_append]
    rw [List.nodup_append]
    refine ⟨hinv.drawnNodup.sublist (hd1sub.map Prod.snd), freshPairs_snd_nodup _ _, ?_⟩
    intro l hl hl'
    obtain ⟨q, hq, rfl⟩ := List.mem_map.1 hl
    obtain ⟨q', hq', hqq⟩ := List.mem_map.1 hl'
    have hb := (freshPairs_snd_bounds _ _ q' hq').1
    have := hd1lt q hq
    omega
  · intro q hq
    show q.2 < s.nextLine + (nonesOf m ++ somesAsNone m).length
    rcases List.mem_append.1 hq with h | h
    · have := hd1lt q h
      omega
    · exact (freshPairs_snd_bounds _ _ q h).2

/-! ### `on_mouse_move` in closed form -/

theorem on_mouse_move_keyError (conv : Option (ℚ → Except Unit ℚ)) (c : Nat)
    (x : Option ℚ) (s : PlotState) (hm : lookupMap s.lines c = none) :
    on_mouse_move conv c x s = MoveOutcome.keyError := by
  simp [on_mouse_move, hm]

theorem on_mouse_move_none_x (conv : Option (ℚ → Except Unit ℚ)) (c : Nat)
    (s : PlotState) (m : List (Nat × Option Nat)) (hmnd : (m.map Prod.fst).Nodup)
    (hm : lookupMap s.lines c = some m) :
    on_mouse_move conv c none s = MoveOutcome.ok
      { s with lines := setEntry s.lines c (nonesOf m ++ somesAsNone m),
               drawn := eraseDrawns s.drawn (someVals m) } := by
  simp only [on_mouse_move, hm]
  rw [remove_lines_eq m s.drawn hmnd]

theorem on_mouse_move_fault_eq (f : ℚ → Except Unit ℚ) (c : Nat) (x : ℚ)
    (s : PlotState) (m : List (Nat × Option Nat)) (hmnd : (m.map Prod.fst).Nodup)
    (hm : lookupMap s.lines c = some m) (hf : f x = Except.error ()) :
    on_mouse_move (some f) c (some x) s = MoveOutcome.fault
      { s with lines := setEntry s.lines c (nonesOf m ++ somesAsNone m),
               drawn := eraseDrawns s.drawn (someVals m) } := by
  simp only [on_mouse_move, hm, hf]
  rw [remove_lines_eq m s.drawn hmnd]

theorem on_mouse_move_draw_eq (conv : Option (ℚ → Except Unit ℚ)) (c : Nat) (x y : ℚ)
    (s : PlotState) (m : List (Nat × Option Nat)) (hmnd : (m.map Prod.fst).Nodup)
    (hm : lookupMap s.lines c = some m)
    (hxc : (match conv with | some f => f x | none => Except.ok x) = Except.ok y) :
    on_mouse_move conv c (some x) s = MoveOutcome.ok
      { s with
        lines := setEntry s.lines c
          (freshEntries (nonesOf m ++ somesAsNone m) s.nextLine),
        drawn := eraseDrawns s.drawn (someVals m) ++
          freshPairs (nonesOf m ++ somesAsNone m) s.nextLine,
        nextLine := s.nextLine + (nonesOf m ++ somesAsNone m).length } := by
  have hm1nd : ((nonesOf m ++ somesAsNone m).map Prod.fst).Nodup :=
    ((nonesOf_append_somesAsNone_fst_perm m).nodup_iff).2 hmnd
  simp only [on_mouse_move, hm, hxc]
  rw [remove_lines_eq m s.drawn hmnd]
  rw [drawLoop_eq _ _ _ hm1nd, setEntry_setEntry]

theorem inv_on_mouse_move_ok (conv : Option (ℚ → Except Unit ℚ)) (c : Nat)
    (x : Option ℚ) (s s' : PlotState) (hinv : Inv s)
    (h : on_mouse_move conv c x s = MoveOutcome.ok s') : Inv s' := by
  cases hm : lookupMap s.lines c with
  | none => rw [on_mouse_move_keyError conv c x s hm] at h; cases h
  | some m =>
    have hmnd := hinv.mapsNodup c m hm
    cases x with
    | none =>
      rw [on_mouse_move_none_x conv c s m hmnd hm] at h
      injection h with h
      subst h
      exact inv_after_remove s c m hinv hm
    | some x =>
      cases hxc : (match conv with | some f => f x | none => Except.ok x) with
      | error u =>
        cases u
        obtain ⟨f, hf⟩ : ∃ f, conv = some f := by
          cases conv with
          | none => simp at hxc
          | some f => exact ⟨f, rfl⟩
        subst hf
        rw [on_mouse_move_fault_eq f c x s m hmnd hm (by simpa using hxc)] at h
        cases h
      | ok y =>
        rw [on_mouse_move_draw_eq conv c x y s m hmnd hm hxc] at h
        injection h with h
        subst h
        exact inv_after_draw s c m hinv hm

theorem inv_on_mouse_move_fault (conv : Option (ℚ → Except Unit ℚ)) (c : Nat)
    (x : ℚ) (s s' : PlotState) (hinv : Inv s)
    (h : on_mouse_move conv c (some x) s = MoveOutcome.fault s') : Inv s' := by
  cases hm : lookupMap s.lines c with
  | none => rw [on_mouse_move_keyError conv c (some x) s hm] at h; cases h
  | some m =>
    have hmnd := hinv.mapsNodup c m hm
    cases hxc : (match conv with | some f => f x | none => Except.ok x) with
    | error u =>
      cases u
      obtain ⟨f, hf⟩ : ∃ f, conv = some f := by
        cases conv with
        | none => simp at hxc
        | some f => exact ⟨f, rfl⟩
      subst hf
      rw [on_mouse_move_fault_eq f c x s m hmnd hm (by simpa using hxc)] at h
      injection h with h
      subst h
      exact inv_after_remove s c m hinv hm
    | ok y =>
      rw [on_mouse_move_draw_eq conv c x y s m hmnd hm hxc] at h
      cases h

/-! ### `add_mouse_tracking_vertical_line` in closed form -/

theorem on_close_isSome (s : PlotState) (c : Nat) (hinv : Inv s) :
    ∃ s1, on_close c s = some s1 := by
  cases hc : lookupMap s.cids c with
  | none => exact ⟨s, on_close_no_session s c hc⟩
  | some p =>
    obtain ⟨m, hm⟩ := inv_lines_of_cids s c p hinv hc
    exact ⟨_, on_close_of_session s c p m hinv hc hm⟩

/-- After a close event the canvas has no saved callback ids, no per-canvas
dict and no connected callbacks at all. -/
theorem on_close_clears (s s1 : PlotState) (c : Nat) (hinv : Inv s)
    (h : on_close c s = some s1) :
    lookupMap s1.cids c = none ∧ lookupMap s1.lines c = none ∧
      canvasSubs s1.reg c = [] := by
  cases hc : lookupMap s.cids c with
  | none =>
    rw [on_close_no_session s c hc, Option.some_inj] at h
    subst h
    have hl : lookupMap s.lines c = none := by
      rw [lookupMap_eq_none_iff]
      rw [lookupMap_eq_none_iff] at hc
      exact hinv.keysEq ▸ hc
    exact ⟨hc, hl, hinv.subsNone c hc⟩
  | some p =>
    obtain ⟨m, hm⟩ := inv_lines_of_cids s c p hinv hc
    rw [on_close_of_session s c p m hinv hc hm, Option.some_inj] at h
    subst h
    refine ⟨lookupMap_eraseKey_self _ _ hinv.keysNodup,
      lookupMap_eraseKey_self _ _ (inv_lines_nodup_fst s hinv), ?_⟩
    show canvasSubs (unregister_event (unregister_event s.reg c p.1) c p.2) c = []
    rw [canvasSubs_unregister, if_pos rfl, canvasSubs_unregister, if_pos rfl,
      hinv.subsSome c p hc]
    by_cases hpp : p.2 = p.1 <;> simp [hpp]

theorem enable_none_eq (s s1 : PlotState) (c : Nat)
    (hclose : on_close c s = some s1) :
    add_mouse_tracking_vertical_line c none s = some s1 := by
  simp [add_mouse_tracking_vertical_line, hclose]

theorem enable_some_eq (s s1 : PlotState) (c : Nat) (axsList : List Nat)
    (hclose : on_close c s = some s1) :
    add_mouse_tracking_vertical_line c (some axsList) s = some
      { s1 with
        lines := setEntry s1.lines c (mkAxesMap axsList),
        reg := { nextCid := s1.reg.nextCid + 2,
                 active := s1.reg.active ++
                   [(c, s1.reg.nextCid, EventKind.mouseMove),
                    (c, s1.reg.nextCid + 1, EventKind.closeEvt)] },
        cids := setEntry s1.cids c (s1.reg.nextCid, s1.reg.nextCid + 1) } := by
  simp only [add_mouse_tracking_vertical_line, hclose, register_event]
  have h2 : s1.reg.nextCid + 1 + 1 = s1.reg.nextCid + 2 := by omega
  simp [h2]

theorem inv_enable (s s' : PlotState) (c : Nat) (to_axes : Option (List Nat))
    (hinv : Inv s)
    (h : add_mouse_tracking_vertical_line c to_axes s = some s') : Inv s' := by
  obtain ⟨s1, hclose⟩ := on_close_isSome s c hinv
  have hinv1 : Inv s1 := inv_on_close s s1 c hinv hclose
  obtain ⟨hc1, hl1, hs1⟩ := on_close_clears s s1 c hinv hclose
  cases to_axes with
  | none =>
    rw [enable_none_eq s s1 c hclose, Option.some_inj] at h
    exact h ▸ hinv1
  | some axsList =>
    rw [enable_some_eq s s1 c axsList hclose, Option.some_inj] at h
    subst h
    have hcnm : c ∉ s1.cids.map Prod.fst := (lookupMap_eq_none_iff _ _).1 hc1
    have hlnm : c ∉ s1.lines.map Prod.fst := (lookupMap_eq_none_iff _ _).1 hl1
    constructor
    · show (setEntry s1.cids c _).map Prod.fst = (setEntry s1.lines c _).map Prod.fst
      exact map_fst_setEntry_congr c _ _ s1.cids s1.lines hinv1.keysEq
    · exact nodup_fst_setEntry s1.cids c _ hinv1.keysNodup
    · intro c' p' hcp
      show canvasSubs { nextCid := s1.reg.nextCid + 2, active := _ } c' = _
      by_cases hcc : c' = c
      · subst hcc
        rw [lookupMap_setEntry_self, Option.some_inj] at hcp
        subst hcp
        show List.filter _ (s1.reg.active ++ _) = _
        rw [List.filter_append]
        have h1 : List.filter (fun e => e.1 == c') s1.reg.active = [] := hs1
        rw [h1]
        simp
      · rw [lookupMap_setEntry_ne s1.cids c c' _ hcc] at hcp
        have := hinv1.subsSome c' p' hcp
        show List.filter _ (s1.reg.active ++ _) = _
        rw [List.filter_append]
        rw [show List.filter (fun e => e.1 == c') s1.reg.active = _ from this]
        have hb : (c == c') = false := by
          simp only [beq_eq_false_iff_ne, ne_eq]
          exact fun hh => hcc hh.symm
        simp [hb]
    · intro c' hcp
      by_cases hcc : c' = c
      · subst hcc
        rw [lookupMap_setEntry_self] at hcp
        exact absurd hcp (by simp)
      · rw [lookupMap_setEntry_ne s1.cids c c' _ hcc] at hcp
        have := hinv1.subsNone c' hcp
        show List.filter _ (s1.reg.active ++ _) = _
        rw [List.filter_append]
        rw [show List.filter (fun e => e.1 == c') s1.reg.active = [] from this]
        have hb : (c == c') = false := by
          simp only [beq_eq_false_iff_ne, ne_eq]
          exact fun hh => hcc hh.symm
        simp [hb]
    · intro c' m' hm'
      by_cases hcc : c' = c
      · subst hcc
        rw [lookupMap_setEntry_self, Option.some_inj] at hm'
        subst hm'
        exact mkAxesMap_nodup axsList
      · rw [lookupMap_setEntry_ne s1.lines c c' _ hcc] at hm'
        exact hinv1.mapsNodup c' m' hm'
    · show List.Perm s1.drawn (allSomePairs (setEntry s1.lines c (mkAxesMap axsList)))
      rw [setEntry_of_not_mem s1.lines c _ hlnm, allSomePairs_append]
      have : allSomePairs [(c, mkAxesMap axsList)] = [] := by
        simp [allSomePairs, somePairs_mkAxesMap]
      rw [this, List.append_nil]
      exact hinv1.drawnPerm
    · exact hinv1.drawnNodup
    · exact hinv1.drawnLt

/-- Every reachable state satisfies the invariant. -/
theorem reachable_inv (s : PlotState) (h : Reachable s) : Inv s := by
  induction h with
  | init =>
    constructor
    · rfl
    · simp [initState]
    · intro c p hp; simp [initState, lookupMap] at hp
    · intro c _; simp [initState, canvasSubs]
    · intro c m hm; simp [initState, lookupMap] at hm
    · simp [initState, allSomePairs]
    · simp [initState]
    · intro p hp; simp [initState] at hp
  | enable c to_axes _ hstep ih => exact inv_enable _ _ c to_axes ih hstep
  | move conv c x _ hstep ih => exact inv_on_mouse_move_ok conv c x _ _ ih hstep
  | moveFault conv c x _ hstep ih => exact inv_on_mouse_move_fault conv c x _ _ ih hstep
  | close c _ hstep ih => exact inv_on_close _ _ c ih hstep

/-! ### Remaining helper facts for the claims -/

theorem someVals_eq_nil (m : List (Nat × Option Nat)) (h : ∀ e ∈ m, e.2 = none) :
    someVals m = [] := by
  have hp := somePairs_eq_nil m h
  rw [← somePairs_map_snd, hp]
  rfl

theorem somePairs_fst_sublist (m : List (Nat × Option Nat)) :
    ((somePairs m).map Prod.fst).Sublist (m.map Prod.fst) := by
  induction m with
  | nil => exact List.Sublist.refl []
  | cons e t ih =>
    obtain ⟨a, v⟩ := e
    cases v with
    | none =>
      have hsp : somePairs ((a, (none : Option Nat)) :: t) = somePairs t := by
        simp [somePairs]
      rw [hsp, List.map_cons]
      exact ih.trans (List.sublist_cons_self a _)
    | some l =>
      have hsp : somePairs ((a, some l) :: t) = (a, l) :: somePairs t := by
        simp [somePairs]
      rw [hsp, List.map_cons, List.map_cons]
      exact ih.cons₂ a

/-- Every line id recorded in an active session's dict is below the
fresh-line counter. -/
theorem inv_someVals_lt (s : PlotState) (c : Nat) (m : List (Nat × Option Nat))
    (hinv : Inv s) (hm : lookupMap s.lines c = some m) :
    ∀ l ∈ someVals m, l < s.nextLine := by
  intro l hl
  obtain ⟨l1, l2, hdecomp, _⟩ := lookupMap_decomp s.lines c m hm
  rw [← somePairs_map_snd] at hl
  obtain ⟨q, hq, rfl⟩ := List.mem_map.1 hl
  have hq' : q ∈ allSomePairs s.lines := by
    rw [hdecomp]
    refine ((allSomePairs_middle_perm l1 l2 c m).symm.mem_iff).1 ?_
    exact List.mem_append_left _ hq
  have hqd : q ∈ s.drawn := (hinv.drawnPerm.mem_iff).2 hq'
  exact hinv.drawnLt q hqd

/-- After `remove_lines` on an active session, the session dict keeps the
same axes keys with every entry reset, and none of the previously recorded
lines is still drawn. -/
theorem after_remove_props (s : PlotState) (c : Nat) (m : List (Nat × Option Nat))
    (hinv : Inv s) (hm : lookupMap s.lines c = some m) :
    lookupMap (setEntry s.lines c (nonesOf m ++ somesAsNone m)) c =
      some (nonesOf m ++ somesAsNone m) ∧
    List.Perm ((nonesOf m ++ somesAsNone m).map Prod.fst) (m.map Prod.fst) ∧
    (∀ e ∈ nonesOf m ++ somesAsNone m, e.2 = none) ∧
    (∀ l ∈ someVals m, l ∉ (eraseDrawns s.drawn (someVals m)).map Prod.snd) := by
  obtain ⟨l1, l2, hdecomp, hl1⟩ := lookupMap_decomp s.lines c m hm
  refine ⟨lookupMap_setEntry_self _ _ _, nonesOf_append_somesAsNone_fst_perm m,
    mem_nonesOf_append_somesAsNone m, ?_⟩
  intro l hl hmem
  have hperm := drawn_after_remove s c m l1 l2 hdecomp hinv.drawnPerm hinv.drawnNodup
  have hd : List.Perm s.drawn (somePairs m ++ (allSomePairs l1 ++ allSomePairs l2)) := by
    have hdp := hinv.drawnPerm
    rw [hdecomp] at hdp
    exact hdp.trans (allSomePairs_middle_perm l1 l2 c m)
  have hdisj := perm_append_ids_disjoint s.drawn (somePairs m) _ hd hinv.drawnNodup
  have hmem' : l ∈ (allSomePairs l1 ++ allSomePairs l2).map Prod.snd :=
    ((hperm.map Prod.snd).mem_iff).1 hmem
  exact hdisj l (by rw [somePairs_map_snd]; exact hl) hmem'

/-! ### Concrete reachable states used by the witnesses -/

/-- The state after `add_mouse_tracking_vertical_line(fig 0, [axes 7])` on a
fresh module, followed by a mouse-move at `x = 5` (one line drawn). -/
theorem reachable_drawn_state :
    Reachable { reg := { nextCid := 2,
                         active := [(0, 0, EventKind.mouseMove), (0, 1, EventKind.closeEvt)] },
                cids := [(0, (0, 1))], lines := [(0, [(7, some 0)])],
                drawn := [(7, 0)], nextLine := 1 } := by
  have h1 : Reachable { reg := { nextCid := 2, active := [(0, 0, EventKind.mouseMove), (0, 1, EventKind.closeEvt)] }, cids := [(0, (0, 1))], lines := [(0, [(7, none)])], drawn := [], nextLine := 0 } :=
    Reachable.enable 0 (some [7]) Reachable.init (by decide)
  exact Reachable.move none 0 (some 5) h1 (by decide)

/-- The state after enabling tracking twice in a row on the same canvas. -/
theorem reachable_double_enable_state :
    Reachable { reg := { nextCid := 4,
                         active := [(0, 2, EventKind.mouseMove), (0, 3, EventKind.closeEvt)] },
                cids := [(0, (2, 3))], lines := [(0, [(5, none), (6, none)])],
                drawn := [], nextLine := 0 } := by
  have h1 : Reachable { reg := { nextCid := 2, active := [(0, 0, EventKind.mouseMove), (0, 1, EventKind.closeEvt)] }, cids := [(0, (0, 1))], lines := [(0, [(5, none)])], drawn := [], nextLine := 0 } :=
    Reachable.enable 0 (some [5]) Reachable.init (by decide)
  exact Reachable.enable 0 (some [5, 6]) h1 (by decide)

/-! ### C1 -/

/-- C1 counterexample: enabling tracking with an *empty* (but not `None`)
axes collection on a fresh module does **not** leave the canvas inactive:
the code stores a session entry (an empty artifact dict plus the callback-id
pair `(0, 1)`) and connects both the move and the close callback. -/
theorem enable_empty_axes_counterexample :
    add_mouse_tracking_vertical_line 0 (some []) initState =
      some { reg := { nextCid := 2,
                      active := [(0, 0, EventKind.mouseMove), (0, 1, EventKind.closeEvt)] },
             cids := [(0, (0, 1))], lines := [(0, [])], drawn := [], nextLine := 0 } ∧
    canvasSubs { nextCid := 2,
                 active := [(0, 0, EventKind.mouseMove),
                            (0, 1, EventKind.closeEvt)] } 0 ≠ [] := by
  constructor
  · decide
  · decide

/-- C1 (amended): only `to_axes = None` is the disable form: it leaves the
canvas with no saved callback ids, no session dict and no connected
callbacks.  An empty (non-`None`) axes collection instead stores a session
with an *empty* artifact dict and still connects one move and one close
callback. -/
theorem enable_none_vs_empty (s : PlotState) (c : Nat) (hs : Reachable s) :
    (∃ s', add_mouse_tracking_vertical_line c none s = some s' ∧
       lookupMap s'.cids c = none ∧ lookupMap s'.lines c = none ∧
       canvasSubs s'.reg c = []) ∧
    (∃ s'', add_mouse_tracking_vertical_line c (some []) s = some s'' ∧
       lookupMap s''.lines c = some [] ∧
       ∃ p, lookupMap s''.cids c = some p ∧
         canvasSubs s''.reg c =
           [(c, p.1, EventKind.mouseMove), (c, p.2, EventKind.closeEvt)]) := by
  have hinv := reachable_inv s hs
  obtain ⟨s1, hclose⟩ := on_close_isSome s c hinv
  obtain ⟨hc1, hl1, hs1sub⟩ := on_close_clears s s1 c hinv hclose
  constructor
  · exact ⟨s1, enable_none_eq s s1 c hclose, hc1, hl1, hs1sub⟩
  · refine ⟨_, enable_some_eq s s1 c [] hclose, ?_, ?_⟩
    · exact lookupMap_setEntry_self s1.lines c []
    · refine ⟨(s1.reg.nextCid, s1.reg.nextCid + 1), lookupMap_setEntry_self _ _ _, ?_⟩
      show List.filter _ (s1.reg.active ++ _) = _
      rw [List.filter_append]
      rw [show List.filter (fun e => e.1 == c) s1.reg.active = [] from hs1sub]
      simp

/-- Witness for `enable_none_vs_empty` at the initial state. -/
theorem enable_none_vs_empty_witness :
    ∃ s', add_mouse_tracking_vertical_line 0 none initState = some s' ∧
      lookupMap s'.cids 0 = none ∧ lookupMap s'.lines 0 = none ∧
      canvasSubs s'.reg 0 = [] := by
  exact (enable_none_vs_empty initState 0 Reachable.init).1

/-! ### C4 -/

/-- C4: in every reachable state — in particular after any sequence of
`add_mouse_tracking_vertical_line` calls, such as two consecutive enables
on the same figure — at most one move callback and at most one close
callback are connected for any canvas: every enable first fires the
teardown (`on_close`) before registering its two fresh callbacks. -/
theorem at_most_one_subscription (s : PlotState) (c : Nat) (hs : Reachable s) :
    (s.reg.active.filter fun e => e.1 == c && e.2.2 == EventKind.mouseMove).length ≤ 1 ∧
    (s.reg.active.filter fun e => e.1 == c && e.2.2 == EventKind.closeEvt).length ≤ 1 := by
  have hinv := reachable_inv s hs
  have key : ∀ k : EventKind,
      (s.reg.active.filter fun e => e.1 == c && e.2.2 == k) =
        (canvasSubs s.reg c).filter fun e => e.2.2 == k := by
    intro k
    simp only [canvasSubs, List.filter_filter]
    refine List.filter_congr ?_
    intro a _
    cases hb1 : (a.1 == c) <;> cases hb2 : (a.2.2 == k) <;> simp [hb1, hb2]
  rw [key EventKind.mouseMove, key EventKind.closeEvt]
  cases hc : lookupMap s.cids c with
  | none => rw [hinv.subsNone c hc]; simp
  | some p =>
    rw [hinv.subsSome c p hc]
    constructor <;> simp [List.filter_cons]

/-- Witness for `at_most_one_subscription`: the state reached by enabling
tracking twice in a row on canvas `0`. -/
theorem at_most_one_subscription_witness :
    (({ reg := { nextCid := 4,
                 active := [(0, 2, EventKind.mouseMove), (0, 3, EventKind.closeEvt)] },
        cids := [(0, (2, 3))], lines := [(0, [(5, none), (6, none)])],
        drawn := [], nextLine := 0 } : PlotState).reg.active.filter
      fun e => e.1 == 0 && e.2.2 == EventKind.mouseMove).length ≤ 1 ∧
    (({ reg := { nextCid := 4,
                 active := [(0, 2, EventKind.mouseMove), (0, 3, EventKind.closeEvt)] },
        cids := [(0, (2, 3))], lines := [(0, [(5, none), (6, none)])],
        drawn := [], nextLine := 0 } : PlotState).reg.active.filter
      fun e => e.1 == 0 && e.2.2 == EventKind.closeEvt).length ≤ 1 :=
  at_most_one_subscription _ 0 reachable_double_enable_state

/-! ### C5 -/

/-- C5: on a surface with an active tracking session, one close event
removes both callback registrations, detaches every line artifact the
session recorded, and deletes both bookkeeping entries, all in the same
step; the cleanup is idempotent — a second close on the now-sessionless
state (or a close on a canvas that never had a session) returns the state
unchanged and raises no error. -/
theorem close_purges_session (s : PlotState) (c : Nat) (hs : Reachable s) :
    (∀ p, lookupMap s.cids c = some p → ∀ m, lookupMap s.lines c = some m →
       ∃ s', on_close c s = some s' ∧
         lookupMap s'.cids c = none ∧
         lookupMap s'.lines c = none ∧
         canvasSubs s'.reg c = [] ∧
         (∀ l ∈ someVals m, l ∉ s'.drawn.map Prod.snd) ∧
         on_close c s' = some s') ∧
    (lookupMap s.cids c = none → on_close c s = some s) := by
  have hinv := reachable_inv s hs
  constructor
  · intro p hp m hm
    have hclose := on_close_of_session s c p m hinv hp hm
    refine ⟨_, hclose, ?_, ?_, ?_, ?_, ?_⟩
    · exact lookupMap_eraseKey_self _ _ hinv.keysNodup
    · exact lookupMap_eraseKey_self _ _ (inv_lines_nodup_fst s hinv)
    · show canvasSubs (unregister_event (unregister_event s.reg c p.1) c p.2) c = []
      rw [canvasSubs_unregister, if_pos rfl, canvasSubs_unregister, if_pos rfl,
        hinv.subsSome c p hp]
      by_cases hpp : p.2 = p.1 <;> simp [hpp]
    · exact (after_remove_props s c m hinv hm).2.2.2
    · exact on_close_no_session _ c (lookupMap_eraseKey_self _ _ hinv.keysNodup)
  · exact on_close_no_session s c

/-- Witness for `close_purges_session`: closing the canvas that has one
tracked axes and one drawn line. -/
theorem close_purges_session_witness :
    ∃ s', on_close 0
        { reg := { nextCid := 2,
                   active := [(0, 0, EventKind.mouseMove), (0, 1, EventKind.closeEvt)] },
          cids := [(0, (0, 1))], lines := [(0, [(7, some 0)])],
          drawn := [(7, 0)], nextLine := 1 } = some s' ∧
      lookupMap s'.cids 0 = none ∧ lookupMap s'.lines 0 = none ∧
      canvasSubs s'.reg 0 = [] ∧ on_close 0 s' = some s' := by
  obtain ⟨s', h1, h2, h3, h4, _, h6⟩ :=
    (close_purges_session _ 0 reachable_drawn_state).1 (0, 1) rfl [(7, some 0)] rfl
  exact ⟨s', h1, h2, h3, h4, h6⟩

/-! ### C6 -/

/-- C6: on an active tracking session, a move event with an absent data
coordinate removes every currently drawn artifact of the session, leaves
the dict with the same axes keys all holding `None`, raises no error
(outcome `ok`), and keeps the session `ACTIVE`: the callback-id entry and
the whole event registry are untouched. -/
theorem move_absent_coordinate (s : PlotState) (c : Nat)
    (conv : Option (ℚ → Except Unit ℚ)) (m : List (Nat × Option Nat))
    (hs : Reachable s) (hm : lookupMap s.lines c = some m) :
    ∃ s', on_mouse_move conv c none s = MoveOutcome.ok s' ∧
      (∃ m', lookupMap s'.lines c = some m' ∧
        List.Perm (m'.map Prod.fst) (m.map Prod.fst) ∧
        (∀ e ∈ m', e.2 = none) ∧
        (∀ l ∈ someVals m, l ∉ s'.drawn.map Prod.snd)) ∧
      s'.cids = s.cids ∧ s'.reg = s.reg := by
  have hinv := reachable_inv s hs
  have hmnd := hinv.mapsNodup c m hm
  obtain ⟨hlook, hperm, hnone, hgone⟩ := after_remove_props s c m hinv hm
  exact ⟨_, on_mouse_move_none_x conv c s m hmnd hm,
    ⟨nonesOf m ++ somesAsNone m, hlook, hperm, hnone, hgone⟩, rfl, rfl⟩

/-- Witness for `move_absent_coordinate`: the pointer leaves the plotting
area while one line is drawn. -/
theorem move_absent_coordinate_witness :
    ∃ s', on_mouse_move none 0 none
        { reg := { nextCid := 2,
                   active := [(0, 0, EventKind.mouseMove), (0, 1, EventKind.closeEvt)] },
          cids := [(0, (0, 1))], lines := [(0, [(7, some 0)])],
          drawn := [(7, 0)], nextLine := 1 } = MoveOutcome.ok s' ∧
      s'.cids = [(0, (0, 1))] := by
  obtain ⟨s', h1, _, h3, _⟩ :=
    move_absent_coordinate _ 0 none [(7, some 0)] reachable_drawn_state rfl
  exact ⟨s', h1, by rw [h3]⟩

/-! ### C7 -/

/-- C7: an active tracking session's dict holds exactly one entry per
tracked axes (unique keys; one `Option`-valued artifact slot each, so at
most one recorded artifact per axes), and any successful move event
preserves the key set while drawing only fresh lines: no line id recorded
before the move survives it, so removal precedes creation and no axes ever
accumulates a second artifact. -/
theorem one_artifact_per_axis (s : PlotState) (c : Nat) (m : List (Nat × Option Nat))
    (hs : Reachable s) (hm : lookupMap s.lines c = some m) :
    (m.map Prod.fst).Nodup ∧
    ((somePairs m).map Prod.fst).Nodup ∧
    (∀ conv x s', on_mouse_move conv c x s = MoveOutcome.ok s' →
      ∃ m', lookupMap s'.lines c = some m' ∧
        List.Perm (m'.map Prod.fst) (m.map Prod.fst) ∧
        ∀ l ∈ someVals m', l ∉ someVals m) := by
  have hinv := reachable_inv s hs
  have hmnd := hinv.mapsNodup c m hm
  refine ⟨hmnd, hmnd.sublist (somePairs_fst_sublist m), ?_⟩
  intro conv x s' h
  cases x with
  | none =>
    rw [on_mouse_move_none_x conv c s m hmnd hm] at h
    injection h with h
    subst h
    refine ⟨nonesOf m ++ somesAsNone m, lookupMap_setEntry_self _ _ _,
      nonesOf_append_somesAsNone_fst_perm m, ?_⟩
    rw [someVals_eq_nil _ (mem_nonesOf_append_somesAsNone m)]
    intro l hl
    simp at hl
  | some x =>
    cases hxc : (match conv with | some f => f x | none => Except.ok x) with
    | error u =>
      cases u
      obtain ⟨f, hf⟩ : ∃ f, conv = some f := by
        cases conv with
        | none => simp at hxc
        | some f => exact ⟨f, rfl⟩
      subst hf
      rw [on_mouse_move_fault_eq f c x s m hmnd hm (by simpa using hxc)] at h
      cases h
    | ok y =>
      rw [on_mouse_move_draw_eq conv c x y s m hmnd hm hxc] at h
      injection h with h
      subst h
      refine ⟨freshEntries (nonesOf m ++ somesAsNone m) s.nextLine,
        lookupMap_setEntry_self _ _ _, ?_, ?_⟩
      · rw [freshEntries_map_fst]
        exact nonesOf_append_somesAsNone_fst_perm m
      · intro l hl hlm
        have hold := inv_someVals_lt s c m hinv hm l hlm
        rw [← somePairs_map_snd, somePairs_freshEntries] at hl
        obtain ⟨q, hq, rfl⟩ := List.mem_map.1 hl
        have := (freshPairs_snd_bounds _ _ q hq).1
        omega

/-- Witness for `one_artifact_per_axis`: the one-axes session with a drawn
line. -/
theorem one_artifact_per_axis_witness :
    (([(7, some 0)] : List (Nat × Option Nat)).map Prod.fst).Nodup ∧
    ((somePairs [(7, some 0)]).map Prod.fst).Nodup := by
  obtain ⟨h1, h2, _⟩ :=
    one_artifact_per_axis _ 0 [(7, some 0)] reachable_drawn_state rfl
  exact ⟨h1, h2⟩

/-! ### C8 -/

/-- C8: on an active session, a move event whose coordinate converter
raises first removes every existing artifact, then propagates the fault
(outcome `fault`, not swallowed into `ok`): afterwards the session dict
still exists with every entry `None`, none of the previously drawn lines
remains, nothing new was drawn, and the session stays `ACTIVE` — the
callback-id entry is still present and the registry untouched. -/
theorem converter_fault_propagates (s : PlotState) (c : Nat)
    (f : ℚ → Except Unit ℚ) (x : ℚ) (m : List (Nat × Option Nat))
    (hs : Reachable s) (hm : lookupMap s.lines c = some m)
    (hf : f x = Except.error ()) :
    ∃ s', on_mouse_move (some f) c (some x) s = MoveOutcome.fault s' ∧
      (∃ m', lookupMap s'.lines c = some m' ∧
        List.Perm (m'.map Prod.fst) (m.map Prod.fst) ∧
        (∀ e ∈ m', e.2 = none) ∧
        (∀ l ∈ someVals m, l ∉ s'.drawn.map Prod.snd)) ∧
      s'.cids = s.cids ∧ s'.reg = s.reg ∧
      (∃ p, lookupMap s'.cids c = some p) := by
  have hinv := reachable_inv s hs
  have hmnd := hinv.mapsNodup c m hm
  obtain ⟨hlook, hperm, hnone, hgone⟩ := after_remove_props s c m hinv hm
  obtain ⟨p, hp⟩ := inv_cids_of_lines s c m hinv hm
  exact ⟨_, on_mouse_move_fault_eq f c x s m hmnd hm hf,
    ⟨nonesOf m ++ somesAsNone m, hlook, hperm, hnone, hgone⟩, rfl, rfl, ⟨p, hp⟩⟩

/-- Witness for `converter_fault_propagates`: a converter that always
raises, on the session with one drawn line. -/
theorem converter_fault_propagates_witness :
    ∃ s', on_mouse_move (some fun _ => Except.error ()) 0 (some 3)
        { reg := { nextCid := 2,
                   active := [(0, 0, EventKind.mouseMove), (0, 1, EventKind.closeEvt)] },
          cids := [(0, (0, 1))], lines := [(0, [(7, some 0)])],
          drawn := [(7, 0)], nextLine := 1 } = MoveOutcome.fault s' ∧
      s'.cids = [(0, (0, 1))] := by
  obtain ⟨s', h1, _, h3, _⟩ :=
    converter_fault_propagates _ 0 (fun _ => Except.error ()) 3 [(7, some 0)]
      reachable_drawn_state rfl rfl
  exact ⟨s', h1, by rw [h3]⟩

end Plotting
